import Mathlib

/-!
PCA9554 driver: register cache, digital pins, interrupt fan-out

A shallow embedding of the Go package `pca9554` (files `pca9554.go`,
`digitalpin.go`, `interrupt.go`).

Conventions of the embedding

* A Go `byte` is a `Nat` below 256.  The only place where the source can
  leave that range is the shift in `DigitalPin`, which is reduced modulo 256.
* A Go `error` is an `Option Error` (`none` is `nil`); a `(value, error)` pair
  is an `Except Error value`.
* The I2C bus and the host GPIO pin are external collaborators.  The bus is a
  record of two step functions over its own state; the host pin is a record of
  the answers it gives.  Every call made on a collaborator, and every handler
  invocation, is appended to `World.trace`, oldest first.
* A `*digitalPin` is a record together with the address `ref` it was
  allocated at, so that equality of records is pointer equality.  The
  `device` back-reference of a pin is the device state passed to its methods.
* Calls to `glog.V(1).Infof` only log and are left out.
-/

namespace Pca9554

/-- Go `error` values carry a message. -/
abbrev Error := String

/-! ## Constants of the library package `embd` used by the driver

The package `github.com/kidoman/embd` is not part of this repository; these
are the values its constants have. -/

/-- Value of `embd.Low`. -/
def Low : Int := 0
/-- Value of `embd.High`. -/
def High : Int := 1
/-- Value of `embd.In` (type `embd.Direction`, an `int`). -/
def In : Int := 0
/-- Value of `embd.Out`. -/
def Out : Int := 1
/-- Value of `embd.CapDigital`. -/
def CapDigital : Nat := 1
/-- Value of `embd.EdgeFalling` (type `embd.Edge`, a `string`). -/
def EdgeFalling : String := "falling"
/-- Value of `embd.EdgeNone`. -/
def EdgeNone : String := "none"

/-! ## Register indices (`pca9554.go`, lines 12-17) -/

def InputPortRegister : Nat := 0
def OutputPortRegister : Nat := 1
def PolarityInvRegister : Nat := 2
def ConfigurationRegister : Nat := 3

/-! ## The pin table (`digitalpin.go`, lines 11-20) -/

/-- The fields of `embd.PinDesc` that the driver sets. -/
structure PinDesc where
  ID : String
  Aliases : List String
  Caps : Nat
  DigitalLogical : Nat
  deriving DecidableEq, Repr

/-- The table `pins`. -/
def pins : List PinDesc :=
  [ { ID := "IO0", Aliases := ["0", "GPIO_0"], Caps := CapDigital, DigitalLogical := 0 },
    { ID := "IO1", Aliases := ["1", "GPIO_1"], Caps := CapDigital, DigitalLogical := 1 },
    { ID := "IO2", Aliases := ["2", "GPIO_2"], Caps := CapDigital, DigitalLogical := 2 },
    { ID := "IO3", Aliases := ["3", "GPIO_3"], Caps := CapDigital, DigitalLogical := 3 },
    { ID := "IO4", Aliases := ["4", "GPIO_4"], Caps := CapDigital, DigitalLogical := 4 },
    { ID := "IO5", Aliases := ["5", "GPIO_5"], Caps := CapDigital, DigitalLogical := 5 },
    { ID := "IO6", Aliases := ["6", "GPIO_6"], Caps := CapDigital, DigitalLogical := 6 },
    { ID := "IO7", Aliases := ["7", "GPIO_7"], Caps := CapDigital, DigitalLogical := 7 } ]

/-- A lookup key, Go `interface{}`: an `int`, a `string`, or a value of a type
the lookup does not understand. -/
inductive Key where
  | int (n : Int)
  | str (s : String)
  | other
  deriving DecidableEq, Repr

/-- The string a key is compared by; `none` for a key of an unsupported type. -/
def Key.text : Key → Option String
  | .int n => some (toString n)
  | .str s => some s
  | .other => none

/-- Text of a key as printed by the `%v` verb in an error message. -/
def Key.render : Key → String
  | .int n => toString n
  | .str s => s
  | .other => "?"

/-- Part of the model of `embd.PinMap.Lookup`: a table entry matches a key text
when its ID is the text, or one of its aliases is the text and the entry has the
capability asked for. -/
def PinDesc.matches (pd : PinDesc) (ks : String) (cap : Nat) : Bool :=
  pd.ID == ks || pd.Aliases.any (fun a => a == ks && pd.Caps &&& cap != 0)

/-- Modelled from the spec: `embd.PinMap.Lookup` is library code, not part of
this repository; pin-name resolution maps a symbolic name or alias to the table
entry that carries it.  Here: the first entry of the table matching the key. -/
def Lookup (m : List PinDesc) (k : Key) (cap : Nat) : Option PinDesc :=
  match k.text with
  | none => none
  | some ks => m.find? (fun pd => pd.matches ks cap)

/-! ## Digital pin (`digitalpin.go`, lines 22-28) -/

/-- The struct `digitalPin`; `ref` is the address of the allocation. -/
structure digitalPin where
  ref : Nat
  id : String
  n : Nat
  mask : Nat
  pin : Nat
  deriving DecidableEq, Repr

/-- The struct literal built by `DigitalPin` for a table entry
(`digitalpin.go`, lines 36-43), allocated at address `ref`. -/
def digitalPin.ofDesc (pd : PinDesc) (ref : Nat) : digitalPin :=
  let pin := (0x1 <<< pd.DigitalLogical) % 256
  { ref := ref, id := pd.ID, n := pd.DigitalLogical, pin := pin, mask := 0xff ^^^ pin }

/-- Body of `PCA9554.DigitalPin` for an allocation landing at `ref`. -/
def digitalPinAt (key : Key) (ref : Nat) : Except Error digitalPin :=
  match Lookup pins key CapDigital with
  | none => .error ("gpio: could not find pin matching " ++ key.render)
  | some pd => .ok (digitalPin.ofDesc pd ref)

/-- A pin that some call of `DigitalPin` returns. -/
def digitalPin.Issued (p : digitalPin) : Prop :=
  ∃ (key : Key) (ref : Nat), digitalPinAt key ref = .ok p

/-! ## External collaborators -/

/-- Modelled from the spec: the external digital pin capability (an
implementation of `embd.DigitalPin` from outside this package, a host GPIO
line), of which the driver calls `SetDirection`, `Watch`, `Close` and `N`.  The
record holds its number and the answers its methods give. -/
structure HostPin where
  n : Int
  setDirectionErr : Option Error
  watchErr : Option Error
  closeErr : Option Error
  deriving DecidableEq, Repr

/-- A value of interface type `embd.DigitalPin`: a `*digitalPin` of this
package, or a pin of some other implementation. -/
inductive PinValue where
  | own (p : digitalPin)
  | host (p : HostPin)
  deriving DecidableEq, Repr

/-- What the driver does to the outside, in the order it does it.  Handlers
are closures supplied by the caller and are named by a number. -/
inductive Event where
  | busRead (addr reg : Nat)
  | busWrite (addr reg val : Nat)
  | hostSetDirection (pin : HostPin) (dir : Int)
  | hostWatch (pin : HostPin) (edge : String) (handler : Nat)
  | hostClose (pin : HostPin)
  | topHandler (handler : Nat) (b : Nat)
  | pinHandler (handler : Nat) (arg : PinValue)
  | fatal (msg : String)
  deriving DecidableEq, Repr

/-- Modelled from the spec: the bus transport (interface `embd.I2CBus`),
restricted to the two methods the driver calls, byte read and byte write of a
register at an address, as step functions over the state `β` of the bus and the
chip. -/
structure I2CBus (β : Type) where
  ReadByteFromReg : β → Nat → Nat → Except Error Nat × β
  WriteByteToReg : β → Nat → Nat → Nat → Option Error × β

/-- Everything outside the device record: the bus and chip, the calls made so
far, and the next free heap address. -/
structure World (β : Type) where
  bus : β
  trace : List Event
  nextRef : Nat

/-! ## Interrupt listener (`interrupt.go`) -/

/-- The struct `interruptListener`: a Go map from pin value to handler, as a
finite map with distinct keys.  The order of `entries` is the order in which a
`range` loop visits the map, which Go leaves open. -/
structure interruptListener where
  interruptablePins : AList (fun _ : PinValue => Nat)

/-- Function `defaultInterruptListener`: an empty map. -/
def defaultInterruptListener : interruptListener :=
  { interruptablePins := ∅ }

/-- One iteration of the loop in `handle`: the call it makes, if any. -/
def interruptListener.handleEntry (b : Nat) (e : Sigma (fun _ : PinValue => Nat)) :
    List Event :=
  match e.1 with
  | .own pin => if pin.pin &&& b ≠ 0x0 then [Event.pinHandler e.2 e.1] else []
  | .host _ => []

/-- Method `handle` (`interrupt.go`, lines 19-27): the handler calls made, in
order. -/
def interruptListener.handle (l : interruptListener) (b : Nat) : List Event :=
  l.interruptablePins.entries.flatMap (interruptListener.handleEntry b)

/-- Method `registerInterrupt` (`interrupt.go`, lines 29-31). -/
def interruptListener.registerInterrupt (l : interruptListener) (pin : PinValue)
    (handler : Nat) : interruptListener :=
  { interruptablePins := l.interruptablePins.insert pin handler }

/-- Method `unregisterInterrupt` (`interrupt.go`, lines 33-35). -/
def interruptListener.unregisterInterrupt (l : interruptListener) (pin : PinValue) :
    interruptListener :=
  { interruptablePins := l.interruptablePins.erase pin }

/-! ## The device (`pca9554.go`) -/

/-- The struct `PCA9554`.  The mutex field `mu` is never locked by the package
and carries no state.  The interrupt line is a host pin. -/
structure PCA9554 (β : Type) where
  Bus : I2CBus β
  Addr : Nat
  configurationReg : Nat
  polarityInvReg : Nat
  inputPortReg : Nat
  outputPortReg : Nat
  initialized : Bool
  interruptPin : Option HostPin
  listener : interruptListener

/-- Function `New` (`pca9554.go`, lines 40-49). -/
def New {β : Type} (bus : I2CBus β) (addr : Nat) : PCA9554 β :=
  { Bus := bus
    Addr := addr
    configurationReg := 0xff
    polarityInvReg := 0
    inputPortReg := 0
    outputPortReg := 0
    initialized := false
    interruptPin := none
    listener := defaultInterruptListener }

variable {β : Type}

/-- A call of `d.Bus.WriteByteToReg(d.Addr, reg, val)`. -/
def PCA9554.busWrite (d : PCA9554 β) (reg val : Nat) (w : World β) : Option Error × World β :=
  let r := d.Bus.WriteByteToReg w.bus d.Addr reg val
  (r.1, { w with bus := r.2, trace := w.trace ++ [Event.busWrite d.Addr reg val] })

/-- A call of `d.Bus.ReadByteFromReg(d.Addr, reg)`. -/
def PCA9554.busRead (d : PCA9554 β) (reg : Nat) (w : World β) : Except Error Nat × World β :=
  let r := d.Bus.ReadByteFromReg w.bus d.Addr reg
  (r.1, { w with bus := r.2, trace := w.trace ++ [Event.busRead d.Addr reg] })

/-- Method `WriteConfiguration` (`pca9554.go`, lines 98-105). -/
def PCA9554.WriteConfiguration (d : PCA9554 β) (conf : Nat) (w : World β) :
    Option Error × PCA9554 β × World β :=
  match d.busWrite ConfigurationRegister conf w with
  | (some err, w1) => (some err, d, w1)
  | (none, w1) => (none, { d with configurationReg := conf }, w1)

/-- Method `ReadConfiguration` (`pca9554.go`, lines 109-117). -/
def PCA9554.ReadConfiguration (d : PCA9554 β) (w : World β) :
    Except Error Nat × PCA9554 β × World β :=
  match d.busRead ConfigurationRegister w with
  | (.error err, w1) => (.error err, d, w1)
  | (.ok conf, w1) => (.ok conf, { d with configurationReg := conf }, w1)

/-- Method `WritePolarityInversionReg` (`pca9554.go`, lines 123-130). -/
def PCA9554.WritePolarityInversionReg (d : PCA9554 β) (reg : Nat) (w : World β) :
    Option Error × PCA9554 β × World β :=
  match d.busWrite PolarityInvRegister reg w with
  | (some err, w1) => (some err, d, w1)
  | (none, w1) => (none, { d with polarityInvReg := reg }, w1)

/-- Method `ReadPolarityInversionReg` (`pca9554.go`, lines 134-142). -/
def PCA9554.ReadPolarityInversionReg (d : PCA9554 β) (w : World β) :
    Except Error Nat × PCA9554 β × World β :=
  match d.busRead PolarityInvRegister w with
  | (.error err, w1) => (.error err, d, w1)
  | (.ok reg, w1) => (.ok reg, { d with polarityInvReg := reg }, w1)

/-- Method `ReadInputReg` (`pca9554.go`, lines 146-154). -/
def PCA9554.ReadInputReg (d : PCA9554 β) (w : World β) :
    Except Error Nat × PCA9554 β × World β :=
  match d.busRead InputPortRegister w with
  | (.error err, w1) => (.error err, d, w1)
  | (.ok b, w1) => (.ok b, { d with inputPortReg := b }, w1)

/-- Method `WriteOutputReg` (`pca9554.go`, lines 158-165). -/
def PCA9554.WriteOutputReg (d : PCA9554 β) (b : Nat) (w : World β) :
    Option Error × PCA9554 β × World β :=
  match d.busWrite OutputPortRegister b w with
  | (some err, w1) => (some err, d, w1)
  | (none, w1) => (none, { d with outputPortReg := b }, w1)

/-- Method `ReadOutputReg` (`pca9554.go`, lines 167-175). -/
def PCA9554.ReadOutputReg (d : PCA9554 β) (w : World β) :
    Except Error Nat × PCA9554 β × World β :=
  match d.busRead OutputPortRegister w with
  | (.error err, w1) => (.error err, d, w1)
  | (.ok b, w1) => (.ok b, { d with outputPortReg := b }, w1)

/-! ## Host pin methods, as the driver sees them -/

/-- Method `N` of a host pin. -/
def HostPin.N (pin : HostPin) : Int := pin.n

/-- A call of `pin.SetDirection(dir)` on a host pin. -/
def HostPin.SetDirection (pin : HostPin) (dir : Int) (w : World β) : Option Error × World β :=
  (pin.setDirectionErr, { w with trace := w.trace ++ [Event.hostSetDirection pin dir] })

/-- A call of `pin.Watch(edge, handler)` on a host pin. -/
def HostPin.Watch (pin : HostPin) (edge : String) (handler : Nat) (w : World β) :
    Option Error × World β :=
  (pin.watchErr, { w with trace := w.trace ++ [Event.hostWatch pin edge handler] })

/-- A call of `pin.Close()` on a host pin. -/
def HostPin.Close (pin : HostPin) (w : World β) : Option Error × World β :=
  (pin.closeErr, { w with trace := w.trace ++ [Event.hostClose pin] })

/-! ## Interrupt pin (`pca9554.go`, lines 51-92) -/

/-- How a callback ends: it returns, or `glog.Fatal` ends the process. -/
inductive Outcome where
  | returned
  | exited
  deriving DecidableEq, Repr

/-- The closure that `SetInteruptPin` passes to `pin.Watch`
(`pca9554.go`, lines 63-71), for the top-level handler `handler`. -/
def PCA9554.interruptCallback (d : PCA9554 β) (handler : Nat) (w : World β) :
    Outcome × PCA9554 β × World β :=
  match d.ReadInputReg w with
  | (.error _, d1, w1) =>
    (.exited, d1,
      { w1 with trace := w1.trace ++ [Event.fatal "pca9554: can't read input register"] })
  | (.ok i, d1, w1) =>
    let b := i &&& d1.configurationReg
    (.returned, d1,
      { w1 with trace := w1.trace ++ [Event.topHandler handler b] ++ d1.listener.handle b })

/-- Method `SetInteruptPin` (`pca9554.go`, lines 52-78).  The closure handed to
`pin.Watch` is `interruptCallback` for `handler`. -/
def PCA9554.SetInteruptPin (d : PCA9554 β) (pin : HostPin) (handler : Nat) (w : World β) :
    Option Error × PCA9554 β × World β :=
  match d.interruptPin with
  | some ip =>
    (some ("pca9554: interrupt pin has already been set to " ++ toString ip.N), d, w)
  | none =>
    match pin.SetDirection In w with
    | (some err, w1) => (some err, d, w1)
    | (none, w1) =>
      match pin.Watch EdgeFalling handler w1 with
      | (some err, w2) => (some err, d, w2)
      | (none, w2) => (none, { d with interruptPin := some pin }, w2)

/-- Method `PCA9554.Close` (`pca9554.go`, lines 81-92). -/
def PCA9554.Close (d : PCA9554 β) (w : World β) : Option Error × PCA9554 β × World β :=
  match d.interruptPin with
  | none => (none, d, w)
  | some ip =>
    match ip.Close w with
    | (some err, w1) => (some err, d, w1)
    | (none, w1) => (none, { d with interruptPin := none }, w1)

/-! ## Digital pin methods (`digitalpin.go`) -/

/-- Method `PCA9554.DigitalPin` (`digitalpin.go`, lines 30-44): on success the
new pin sits at the next free address. -/
def PCA9554.DigitalPin (_d : PCA9554 β) (key : Key) (w : World β) :
    Except Error digitalPin × World β :=
  match digitalPinAt key w.nextRef with
  | .error err => (.error err, w)
  | .ok p => (.ok p, { w with nextRef := w.nextRef + 1 })

/-- Go `a &^ b` on bytes: the bits of `a` that are not in `b`. -/
def andNot (a b : Nat) : Nat := a &&& (0xff ^^^ b)

/-- Method `N`. -/
def digitalPin.N (p : digitalPin) : Int := p.n

/-- Method `SetDirection` (`digitalpin.go`, lines 131-138). -/
def digitalPin.SetDirection (p : digitalPin) (dir : Int) (d : PCA9554 β) (w : World β) :
    Option Error × PCA9554 β × World β :=
  let reg := if In = dir then p.pin else 0
  d.WriteConfiguration (d.configurationReg &&& p.mask ||| reg) w

/-- Method `ActiveLow` (`digitalpin.go`, lines 140-146). -/
def digitalPin.ActiveLow (p : digitalPin) (b : Bool) (d : PCA9554 β) (w : World β) :
    Option Error × PCA9554 β × World β :=
  let state := if b then p.pin else 0
  d.WritePolarityInversionReg (d.polarityInvReg &&& p.mask ||| state) w

/-- Method `Write` (`digitalpin.go`, lines 63-71). -/
def digitalPin.Write (p : digitalPin) (val : Int) (d : PCA9554 β) (w : World β) :
    Option Error × PCA9554 β × World β :=
  let pin := if val ≠ Low then p.pin else 0
  let reg := (d.outputPortReg &&& p.mask) ||| pin
  d.WriteOutputReg reg w

/-- Method `Read` (`digitalpin.go`, lines 73-82). -/
def digitalPin.Read (p : digitalPin) (d : PCA9554 β) (w : World β) :
    Except Error Int × PCA9554 β × World β :=
  match d.ReadInputReg w with
  | (.error err, d1, w1) => (.error err, d1, w1)
  | (.ok reg, d1, w1) =>
    if 0 = andNot reg p.mask then (.ok Low, d1, w1) else (.ok High, d1, w1)

/-- Method `Watch` (`digitalpin.go`, lines 46-52). -/
def digitalPin.Watch (p : digitalPin) (_edge : String) (handler : Nat) (d : PCA9554 β)
    (w : World β) : Option Error × PCA9554 β × World β :=
  match p.SetDirection In d w with
  | (some err, d1, w1) => (some err, d1, w1)
  | (none, d1, w1) =>
    (none, { d1 with listener := d1.listener.registerInterrupt (.own p) handler }, w1)

/-- Method `StopWatching` (`digitalpin.go`, lines 54-57). -/
def digitalPin.StopWatching (p : digitalPin) (d : PCA9554 β) (w : World β) :
    Option Error × PCA9554 β × World β :=
  (none, { d with listener := d.listener.unregisterInterrupt (.own p) }, w)

/-- Method `PullUp` (`digitalpin.go`, lines 148-150). -/
def digitalPin.PullUp (_p : digitalPin) : Option Error := some "gpio: not implemented"

/-- Method `PullDown` (`digitalpin.go`, lines 152-154). -/
def digitalPin.PullDown (_p : digitalPin) : Option Error := some "gpio: not implemented"

/-- Method `digitalPin.Close` (`digitalpin.go`, lines 156-158). -/
def digitalPin.Close (p : digitalPin) (d : PCA9554 β) (w : World β) :
    Option Error × PCA9554 β × World β :=
  p.StopWatching d w

/-! ## Buses used to run the driver on concrete inputs -/

/-- A bus in front of a chip that stores what is written and answers a read
with what is stored: the state maps address and register index to a byte. -/
def echoBus : I2CBus (Nat → Nat → Nat) where
  ReadByteFromReg := fun s addr reg => (.ok (s addr reg), s)
  WriteByteToReg := fun s addr reg val =>
    (none, fun a r => if a = addr ∧ r = reg then val else s a r)

/-- A bus on which every transfer fails. -/
def deadBus : I2CBus Unit where
  ReadByteFromReg := fun s _ _ => (.error "i2c: no acknowledge", s)
  WriteByteToReg := fun s _ _ _ => (some "i2c: no acknowledge", s)

/-- A bus that answers every write with success and every read with a fixed
byte. -/
def constBus (r : Nat) : I2CBus Unit where
  ReadByteFromReg := fun s _ _ => (.ok r, s)
  WriteByteToReg := fun s _ _ _ => (none, s)

/-- A world with nothing done yet. -/
def World.start (s : β) : World β := { bus := s, trace := [], nextRef := 0 }

/-- A bus echoes writes when every write succeeds and a read of the register
just written returns the byte written. -/
def I2CBus.Echoes (bus : I2CBus β) : Prop :=
  ∀ (s : β) (addr reg val : Nat),
    (bus.WriteByteToReg s addr reg val).1 = none ∧
    (bus.ReadByteFromReg (bus.WriteByteToReg s addr reg val).2 addr reg).1 = .ok val

/-- Every write on the bus succeeds. -/
def I2CBus.WritesSucceed (bus : I2CBus β) : Prop :=
  ∀ (s : β) (addr reg val : Nat), (bus.WriteByteToReg s addr reg val).1 = none

/-! ## Sample inputs -/

/-- A chip whose registers all hold zero; nothing done yet. -/
def sampleWorld : World (Nat → Nat → Nat) := World.start (fun _ _ => 0)

/-- A device at address 0x38 on the echoing bus, with some cached state. -/
def sampleDevice : PCA9554 (Nat → Nat → Nat) :=
  { New echoBus 0x38 with configurationReg := 0x5A, outputPortReg := 0xA5 }

/-- A device at address 0x38 on the bus where every transfer fails. -/
def deadDevice : PCA9554 Unit :=
  { New deadBus 0x38 with inputPortReg := 0x11, outputPortReg := 0x22, polarityInvReg := 0x33 }

/-- The pin `DigitalPin("GPIO_3")` returns when the heap is empty. -/
def samplePin : digitalPin := { ref := 0, id := "IO3", n := 3, mask := 0xF7, pin := 0x08 }

/-- A chip whose register `r` holds `0xC0 + r`; nothing done yet. -/
def liveWorld : World (Nat → Nat → Nat) := World.start (fun _ reg => 0xC0 + reg)

/-- A host line with number 17 whose methods all succeed. -/
def irqPin : HostPin := { n := 17, setDirectionErr := none, watchErr := none, closeErr := none }

/-- Another host line, number 27. -/
def irqPin2 : HostPin := { n := 27, setDirectionErr := none, watchErr := none, closeErr := none }

/-- The pin `DigitalPin("GPIO_1")` returns at address 1. -/
def samplePin1 : digitalPin := { ref := 1, id := "IO1", n := 1, mask := 0xFD, pin := 0x02 }

/-- The pin `DigitalPin("GPIO_2")` returns at address 2. -/
def samplePin2 : digitalPin := { ref := 2, id := "IO2", n := 2, mask := 0xFB, pin := 0x04 }

/-- A listener with the pins of index 1 and 2 registered, handlers 11 and 12. -/
def sampleListener : interruptListener :=
  (defaultInterruptListener.registerInterrupt (.own samplePin1) 11).registerInterrupt
    (.own samplePin2) 12

/-- A device on the echoing bus with the pins of index 1 and 2 watched, pin 1
configured as input and every other pin as output. -/
def watchingDevice : PCA9554 (Nat → Nat → Nat) :=
  { New echoBus 0x38 with configurationReg := 0x02, listener := sampleListener }

/-- A chip whose registers all hold `0b00000110`; nothing done yet. -/
def inputWorld : World (Nat → Nat → Nat) := World.start (fun _ _ => 0x06)

/-- The pin `DigitalPin("GPIO_6")` returns at address 6. -/
def samplePin6 : digitalPin := { ref := 6, id := "IO6", n := 6, mask := 0xBF, pin := 0x40 }

/-- The pin `DigitalPin("GPIO_7")` returns at address 7. -/
def samplePin7 : digitalPin := { ref := 7, id := "IO7", n := 7, mask := 0x7F, pin := 0x80 }

/-- A device with host line 17 bound as its interrupt pin. -/
def boundDevice : PCA9554 (Nat → Nat → Nat) := { watchingDevice with interruptPin := some irqPin }

/-- A call a client can make in a session with one device: `DigitalPin` with a
key, or `Watch` or `StopWatching` on the pin that the `i`-th successful
`DigitalPin` call returned (the type `digitalPin` is not exported, so a client
holds no other pins). -/
inductive Call where
  | digitalPin (key : Key)
  | watch (i : Nat) (edge : String) (handler : Nat)
  | stopWatching (i : Nat)
  deriving DecidableEq, Repr

/-- A session: the device, the world, and the pins handed out so far. -/
structure Session (β : Type) where
  dev : PCA9554 β
  world : World β
  held : List digitalPin

/-- The session right after `New(bus, addr)`. -/
def Session.start (bus : I2CBus β) (addr : Nat) (w : World β) : Session β :=
  { dev := New bus addr, world := w, held := [] }

/-- One call of the client. -/
def Session.step (s : Session β) : Call → Session β
  | .digitalPin key =>
    match s.dev.DigitalPin key s.world with
    | (.ok p, w1) => { s with world := w1, held := s.held ++ [p] }
    | (.error _, w1) => { s with world := w1 }
  | .watch i edge handler =>
    match s.held.get? i with
    | none => s
    | some p =>
      { s with dev := (p.Watch edge handler s.dev s.world).2.1
               world := (p.Watch edge handler s.dev s.world).2.2 }
  | .stopWatching i =>
    match s.held.get? i with
    | none => s
    | some p =>
      { s with dev := (p.StopWatching s.dev s.world).2.1
               world := (p.StopWatching s.dev s.world).2.2 }

/-- A sequence of calls. -/
def Session.run (s : Session β) (calls : List Call) : Session β :=
  calls.foldl Session.step s

/-- The number of entries of the registration map. -/
def Session.watchers (s : Session β) : Nat :=
  s.dev.listener.interruptablePins.entries.length

/-- Nine times: ask for the pin "0" and watch it. -/
def nineWatches : List Call :=
  (List.range 9).flatMap (fun i => [Call.digitalPin (.str "0"), Call.watch i EdgeNone i])

/-- The index a registered pin value stands for. -/
def PinValue.index : PinValue → Nat
  | .own p => p.n
  | .host _ => 0

/-- Eight times: ask for the pin with the next index and watch it. -/
def eightWatches : List Call :=
  (List.range 8).flatMap (fun i => [Call.digitalPin (.int i), Call.watch i EdgeNone i])

/-- What holds in every session: registered keys are pins handed out, and pins
handed out were issued by `DigitalPin`. -/
def Session.Sound (s : Session β) : Prop :=
  (∀ k, k ∈ s.dev.listener.interruptablePins.keys → ∃ p, p ∈ s.held ∧ k = PinValue.own p) ∧
  (∀ p, p ∈ s.held → p.Issued)

/-- A driver operation on a device: the four register reads, the three register
writes, and the pin operations `SetDirection`, `ActiveLow`, `Write`, `Read` and
`Watch`. -/
inductive Op where
  | ReadInputReg
  | ReadOutputReg
  | ReadConfiguration
  | ReadPolarityInversionReg
  | WriteConfiguration (b : Nat)
  | WritePolarityInversionReg (b : Nat)
  | WriteOutputReg (b : Nat)
  | SetDirection (p : digitalPin) (dir : Int)
  | ActiveLow (p : digitalPin) (b : Bool)
  | Write (p : digitalPin) (val : Int)
  | Read (p : digitalPin)
  | Watch (p : digitalPin) (edge : String) (handler : Nat)
  deriving DecidableEq, Repr

/-- Whether a `(value, error)` result carries no error. -/
def succeeded {α : Type} : Except Error α → Bool
  | .ok _ => true
  | .error _ => false

/-- Runs an operation: whether it returned without error, and the device and
world after it. -/
def Op.run (op : Op) (d : PCA9554 β) (w : World β) : Bool × PCA9554 β × World β :=
  match op with
  | .ReadInputReg => (succeeded (d.ReadInputReg w).1, (d.ReadInputReg w).2)
  | .ReadOutputReg => (succeeded (d.ReadOutputReg w).1, (d.ReadOutputReg w).2)
  | .ReadConfiguration => (succeeded (d.ReadConfiguration w).1, (d.ReadConfiguration w).2)
  | .ReadPolarityInversionReg =>
    (succeeded (d.ReadPolarityInversionReg w).1, (d.ReadPolarityInversionReg w).2)
  | .WriteConfiguration b => ((d.WriteConfiguration b w).1.isNone, (d.WriteConfiguration b w).2)
  | .WritePolarityInversionReg b =>
    ((d.WritePolarityInversionReg b w).1.isNone, (d.WritePolarityInversionReg b w).2)
  | .WriteOutputReg b => ((d.WriteOutputReg b w).1.isNone, (d.WriteOutputReg b w).2)
  | .SetDirection p dir => ((p.SetDirection dir d w).1.isNone, (p.SetDirection dir d w).2)
  | .ActiveLow p b => ((p.ActiveLow b d w).1.isNone, (p.ActiveLow b d w).2)
  | .Write p val => ((p.Write val d w).1.isNone, (p.Write val d w).2)
  | .Read p => (succeeded (p.Read d w).1, (p.Read d w).2)
  | .Watch p edge handler => ((p.Watch edge handler d w).1.isNone, (p.Watch edge handler d w).2)

/-- The register an operation reads or writes explicitly, if it is one of the
seven register operations. -/
def Op.register : Op → Option Nat
  | .ReadInputReg => some InputPortRegister
  | .ReadOutputReg => some OutputPortRegister
  | .ReadConfiguration => some ConfigurationRegister
  | .ReadPolarityInversionReg => some PolarityInvRegister
  | .WriteConfiguration _ => some ConfigurationRegister
  | .WritePolarityInversionReg _ => some PolarityInvRegister
  | .WriteOutputReg _ => some OutputPortRegister
  | _ => none

/-- The cached copy of the register with index `reg`. -/
def PCA9554.cached (d : PCA9554 β) (reg : Nat) : Nat :=
  if reg = InputPortRegister then d.inputPortReg
  else if reg = OutputPortRegister then d.outputPortReg
  else if reg = PolarityInvRegister then d.polarityInvReg
  else d.configurationReg

/-- A bus that echoes writes in front of a chip nobody else modifies: `hw` reads
the register values off the bus state; a successful read returns the value of
the register, a successful write sets it, and nothing else changes a register
(in particular a failed transfer changes none). -/
structure I2CBus.Faithful (bus : I2CBus β) (hw : β → Nat → Nat → Nat) : Prop where
  read_value : ∀ s addr reg v, (bus.ReadByteFromReg s addr reg).1 = .ok v → v = hw s addr reg
  read_frame : ∀ s addr reg, hw (bus.ReadByteFromReg s addr reg).2 = hw s
  write_value : ∀ s addr reg v, (bus.WriteByteToReg s addr reg v).1 = none →
    ∀ a r, hw (bus.WriteByteToReg s addr reg v).2 a r =
      if a = addr ∧ r = reg then v else hw s a r
  write_failed : ∀ s addr reg v e, (bus.WriteByteToReg s addr reg v).1 = some e →
    hw (bus.WriteByteToReg s addr reg v).2 = hw s

/-- A bus that echoes writes, except that the transfers numbered in `faults`
fail and change nothing; the state holds the registers and the number of
transfers made so far. -/
def flakyBus (faults : List Nat) : I2CBus ((Nat → Nat → Nat) × Nat) where
  ReadByteFromReg := fun s addr reg =>
    if s.2 ∈ faults then (.error "i2c: no acknowledge", (s.1, s.2 + 1))
    else (.ok (s.1 addr reg), (s.1, s.2 + 1))
  WriteByteToReg := fun s addr reg val =>
    if s.2 ∈ faults then (some "i2c: no acknowledge", (s.1, s.2 + 1))
    else (none, (fun a r => if a = addr ∧ r = reg then val else s.1 a r, s.2 + 1))

/-- A device on a bus whose second transfer fails, with caches equal to the
registers of `flakyWorld`. -/
def flakyDevice : PCA9554 ((Nat → Nat → Nat) × Nat) :=
  { New (flakyBus [1]) 0x38 with
    configurationReg := 0xC3, polarityInvReg := 0xC2, outputPortReg := 0xC1 }

/-- A chip whose register `r` holds `0xC0 + r`, before the first transfer. -/
def flakyWorld : World ((Nat → Nat → Nat) × Nat) := World.start (fun _ reg => 0xC0 + reg, 0)

/-- One polling loop of `TimePulse` (`digitalpin.go`, lines 91-100, 103-112,
117-126): read the pin until it is at `target`, or until a read fails.  The
loop has no bound in the source; here it gives `none` when it has not ended
after `fuel` reads. -/
def digitalPin.waitFor (p : digitalPin) (target : Int) :
    Nat → PCA9554 β → World β → Option (Option Error × PCA9554 β × World β)
  | 0, _, _ => none
  | fuel + 1, d, w =>
    match p.Read d w with
    | (.error err, d1, w1) => some (some err, d1, w1)
    | (.ok v, d1, w1) =>
      if v = target then some (none, d1, w1) else p.waitFor target fuel d1 w1

/-- Method `TimePulse` (`digitalpin.go`, lines 84-129).  The clock `now` is read
off the world: `time.Now()` is `now` of the current world and
`time.Since(startTime)` is `now` of the current world minus `startTime`.  Each
loop is run for at most `fuel` reads. -/
def digitalPin.TimePulse (p : digitalPin) (state : Int) (now : World β → Int) (fuel : Nat)
    (d : PCA9554 β) (w : World β) : Option (Except Error Int × PCA9554 β × World β) :=
  let aroundState := if state = Low then High else Low
  match p.waitFor aroundState fuel d w with
  | none => none
  | some (some err, d1, w1) => some (.error err, d1, w1)
  | some (none, d1, w1) =>
    match p.waitFor state fuel d1 w1 with
    | none => none
    | some (some err, d2, w2) => some (.error err, d2, w2)
    | some (none, d2, w2) =>
      let startTime := now w2
      match p.waitFor aroundState fuel d2 w2 with
      | none => none
      | some (some err, d3, w3) => some (.error err, d3, w3)
      | some (none, d3, w3) => some (.ok (now w3 - startTime), d3, w3)

/-- A bus that answers successive reads from a script, each entry a byte or a
failure; a read after the end of the script fails.  Writes succeed and leave
the script alone. -/
def scriptBus : I2CBus (List (Except Error Nat)) where
  ReadByteFromReg := fun s _ _ =>
    match s with
    | [] => (.error "script: no more reads", [])
    | x :: rest => (x, rest)
  WriteByteToReg := fun s _ _ _ => (none, s)

/-- The level of pin `p` in an input byte. -/
def digitalPin.level (p : digitalPin) (r : Nat) : Int := if r.testBit p.n then High else Low

/-- The level opposite to `state`, for `state` one of `Low` and `High`. -/
def opposite (state : Int) : Int := if state = Low then High else Low

/-- The bytes of the reads of a script before its first failing read. -/
def answered : List (Except Error Nat) → List Nat
  | .ok r :: rest => r :: answered rest
  | _ => []

/-- The error of the first read of a script that fails: a scripted failure, or
the failure of the read after the end of the script. -/
def firstFailure : List (Except Error Nat) → Error
  | [] => "script: no more reads"
  | .ok _ :: rest => firstFailure rest
  | .error e :: _ => e

/-- The reads up to and including the `n`-th are the first to contain the levels
`pat` in this order: the first `n` levels contain `pat` as a subsequence and no
shorter prefix does. -/
def CompletesAt (pat levels : List Int) (n : Nat) : Prop :=
  pat.Sublist (levels.take n) ∧ ∀ m, m < n → ¬ pat.Sublist (levels.take m)

/-- The world after `n` more reads of the input register on the script bus. -/
def World.afterReads (w : World (List (Except Error Nat))) (addr n : Nat) :
    World (List (Except Error Nat)) :=
  { w with bus := w.bus.drop n
           trace := w.trace ++ List.replicate n (Event.busRead addr InputPortRegister) }

/-- Proof device: the number of levels consumed when the levels `pat` are
looked for one after the other, each at its first occurrence after the
previous one; `none` when one of them does not occur. -/
def firstMatch : List Int → List Int → Option Nat
  | [], _ => some 0
  | _ :: _, [] => none
  | a :: pat, x :: l =>
    if x = a then (firstMatch pat l).map (· + 1) else (firstMatch (a :: pat) l).map (· + 1)

/-- A device at address 0x38 on the script bus. -/
def scriptDevice : PCA9554 (List (Except Error Nat)) := New scriptBus 0x38

/-- Seven scripted input bytes; bit 3 goes high, low, low, high, high, low,
high. -/
def pulseScript : List (Except Error Nat) :=
  [.ok 0x08, .ok 0x00, .ok 0x00, .ok 0x08, .ok 0x08, .ok 0x00, .ok 0xFF]

/-- A script whose third read fails. -/
def brokenScript : List (Except Error Nat) :=
  [.ok 0x08, .ok 0x00, .error "i2c: no acknowledge", .ok 0x08, .ok 0x00]

/-- A clock that advances by one with every call recorded in the trace. -/
def traceClock (w : World (List (Except Error Nat))) : Int := w.trace.length

/-! # Theorems -/

/-! ## Lemmas on the pin table and on bit masks -/

theorem Lookup_mem {m : List PinDesc} {k : Key} {cap : Nat} {pd : PinDesc}
    (h : Lookup m k cap = some pd) : pd ∈ m := by
  unfold Lookup at h
  split at h
  · cases h
  · exact List.mem_of_find?_eq_some h

theorem ofDesc_table (pd : PinDesc) (hpd : pd ∈ pins) (ref : Nat) :
    (digitalPin.ofDesc pd ref).n < 8 ∧
    (digitalPin.ofDesc pd ref).pin = 2 ^ (digitalPin.ofDesc pd ref).n ∧
    (digitalPin.ofDesc pd ref).mask = 255 - 2 ^ (digitalPin.ofDesc pd ref).n := by
  simp only [pins, List.mem_cons, List.mem_singleton, List.not_mem_nil, or_false] at hpd
  rcases hpd with h | h | h | h | h | h | h | h <;> subst h <;>
    simp only [digitalPin.ofDesc] <;> decide

/-- The shape of every pin that `DigitalPin` hands out. -/
theorem Issued_shape {p : digitalPin} (hp : p.Issued) :
    p.n < 8 ∧ p.pin = 2 ^ p.n ∧ p.mask = 255 - 2 ^ p.n := by
  obtain ⟨key, ref, h⟩ := hp
  unfold digitalPinAt at h
  split at h
  · cases h
  · next pd hpd =>
    injection h with h
    subst h
    exact ofDesc_table pd (Lookup_mem hpd) ref

theorem DigitalPin_issued {d : PCA9554 β} {key : Key} {w w1 : World β} {p : digitalPin}
    (h : d.DigitalPin key w = (.ok p, w1)) : p.Issued := by
  refine ⟨key, w.nextRef, ?_⟩
  unfold PCA9554.DigitalPin at h
  split at h
  · cases h
  · next q hq =>
    cases h
    exact hq

theorem testBit_clearMask {n j : Nat} (hn : n < 8) (hj : j < 8) :
    (255 - 2 ^ n).testBit j = decide (j ≠ n) := by
  interval_cases n <;> interval_cases j <;> decide

theorem testBit_bitMask (n j : Nat) : (2 ^ n).testBit j = decide (j = n) := by
  rw [Nat.testBit_two_pow]
  simp only [eq_comm]

theorem clearMask_lt {n : Nat} : 255 - 2 ^ n < 256 :=
  Nat.lt_of_le_of_lt (Nat.sub_le _ _) (by decide)

theorem bitMask_lt {n : Nat} (hn : n < 8) : 2 ^ n < 256 := by
  interval_cases n <;> decide

/-- The merge every pin write performs, read bit by bit. -/
theorem testBit_merge {n j : Nat} (hn : n < 8) (hj : j < 8) (x y : Nat) :
    (x &&& (255 - 2 ^ n) ||| y).testBit j = (if j = n then y.testBit j else (x.testBit j || y.testBit j)) := by
  rw [Nat.testBit_or, Nat.testBit_and, testBit_clearMask hn hj]
  by_cases h : j = n <;> simp [h]

theorem merge_lt {n : Nat} (x : Nat) {y : Nat} (hy : y < 256) :
    x &&& (255 - 2 ^ n) ||| y < 256 :=
  Nat.or_lt_two_pow (n := 8) (Nat.and_lt_two_pow x (n := 8) clearMask_lt) hy

/-- C1: a pin returned by `DigitalPin` for the table entry with logical index
`i = p.n` has `i` in 0..7, bit mask `pin = 1 << i`, and clear mask `mask` equal
to the complement of the bit mask within 8 bits (below 256, and each of its 8
bits the negation of the bit of `pin`); so `pin & mask = 0` and
`pin | mask = 0xFF`. -/
theorem DigitalPin_masks (d : PCA9554 β) (key : Key) (w w1 : World β) (p : digitalPin)
    (h : d.DigitalPin key w = (.ok p, w1)) :
    p.n < 8 ∧ p.pin = 1 <<< p.n ∧ p.mask < 256 ∧
    (∀ j : Fin 8, p.mask.testBit j = !(p.pin.testBit j)) ∧
    p.pin &&& p.mask = 0 ∧ p.pin ||| p.mask = 0xFF := by
  obtain ⟨hn, hpin, hmask⟩ := Issued_shape (DigitalPin_issued h)
  rw [hpin, hmask, Nat.one_shiftLeft]
  refine ⟨hn, rfl, clearMask_lt, ?_, ?_, ?_⟩
  · intro j
    rw [testBit_clearMask hn j.isLt, testBit_bitMask]
    simp
  · generalize p.n = n at hn
    interval_cases n <;> decide
  · generalize p.n = n at hn
    interval_cases n <;> decide

/-- C1 at the key "GPIO_3": the pin has index 3, bit mask 0x08, clear mask 0xF7. -/
theorem DigitalPin_masks_witness :
    (New echoBus 0x38).DigitalPin (.str "GPIO_3") (World.start (fun _ _ => 0)) =
      (.ok { ref := 0, id := "IO3", n := 3, mask := 0xF7, pin := 0x08 },
        { World.start (fun _ _ => 0) with nextRef := 1 }) ∧
    (3 < 8 ∧ 0x08 = 1 <<< 3 ∧ 0xF7 < 256 ∧
      (∀ j : Fin 8, Nat.testBit 0xF7 j = !(Nat.testBit 0x08 j)) ∧
      0x08 &&& 0xF7 = 0 ∧ 0x08 ||| 0xF7 = 0xFF) :=
  ⟨rfl, DigitalPin_masks (New echoBus 0x38) (.str "GPIO_3") (World.start (fun _ _ => 0)) _ _ rfl⟩

/-- What `WriteOutputReg` does, by the answer of the bus. -/
theorem WriteOutputReg_eq (d : PCA9554 β) (b : Nat) (w : World β) :
    d.WriteOutputReg b w =
      ((d.Bus.WriteByteToReg w.bus d.Addr OutputPortRegister b).1,
        (match (d.Bus.WriteByteToReg w.bus d.Addr OutputPortRegister b).1 with
          | some _ => d
          | none => { d with outputPortReg := b }),
        { w with bus := (d.Bus.WriteByteToReg w.bus d.Addr OutputPortRegister b).2,
                 trace := w.trace ++ [Event.busWrite d.Addr OutputPortRegister b] }) := by
  unfold PCA9554.WriteOutputReg PCA9554.busWrite
  cases h : (d.Bus.WriteByteToReg w.bus d.Addr OutputPortRegister b).1 <;> simp [h]

/-- The byte that `Write` sends, for a pin with index `n`. -/
theorem Write_byte_bits {n : Nat} (hn : n < 8) (val : Int) (x : Nat) :
    (x &&& (255 - 2 ^ n) ||| (if val ≠ Low then 2 ^ n else 0)) < 256 ∧
    (x &&& (255 - 2 ^ n) ||| (if val ≠ Low then 2 ^ n else 0)).testBit n = decide (val ≠ Low) ∧
    ∀ j, j < 8 → j ≠ n →
      (x &&& (255 - 2 ^ n) ||| (if val ≠ Low then 2 ^ n else 0)).testBit j = x.testBit j := by
  refine ⟨merge_lt x (by split <;> [exact bitMask_lt hn; decide]), ?_, ?_⟩
  · rw [testBit_merge hn hn]
    by_cases hv : val ≠ Low <;> simp [hv, testBit_bitMask]
  · intro j hj hjn
    rw [testBit_merge hn hj]
    by_cases hv : val ≠ Low <;> simp [hv, hjn, testBit_bitMask]

/-- C2: for every device state, pin `p` with index `i = p.n` and level `val`,
`p.Write(val)` makes exactly one bus call, a write of a byte `b` to the output
register, where bit `i` of `b` is 1 iff `val` is not `Low` and each other bit of
`b` is the bit of the cached output register before the call; when that bus
write succeeds `Write` returns no error and the cached output register is `b`,
nothing else in the device changing.  Consequently, when `Write(High)` and then
`Write(Low)` on `p` both succeed, bit `i` of the cache is set after the first and
cleared after the second, and the other 7 bits are as before after each. -/
theorem Write_masked_merge (d : PCA9554 β) (w : World β) (p : digitalPin) (hp : p.Issued) :
    (∀ val : Int, ∃ b : Nat,
      b < 256 ∧ b.testBit p.n = decide (val ≠ Low) ∧
      (∀ j, j < 8 → j ≠ p.n → b.testBit j = d.outputPortReg.testBit j) ∧
      (p.Write val d w).2.2.trace = w.trace ++ [Event.busWrite d.Addr OutputPortRegister b] ∧
      ((d.Bus.WriteByteToReg w.bus d.Addr OutputPortRegister b).1 = none →
        (p.Write val d w).1 = none ∧ (p.Write val d w).2.1 = { d with outputPortReg := b })) ∧
    (∀ (d1 d2 : PCA9554 β) (w1 w2 : World β),
      p.Write High d w = (none, d1, w1) → p.Write Low d1 w1 = (none, d2, w2) →
        d1.outputPortReg.testBit p.n = true ∧ d2.outputPortReg.testBit p.n = false ∧
        ∀ j, j < 8 → j ≠ p.n →
          d1.outputPortReg.testBit j = d.outputPortReg.testBit j ∧
          d2.outputPortReg.testBit j = d.outputPortReg.testBit j) := by
  obtain ⟨hn, hpin, hmask⟩ := Issued_shape hp
  have single : ∀ (val : Int) (d0 d1 : PCA9554 β) (w0 w1 : World β),
      p.Write val d0 w0 = (none, d1, w1) →
      d1.outputPortReg.testBit p.n = decide (val ≠ Low) ∧
      ∀ j, j < 8 → j ≠ p.n → d1.outputPortReg.testBit j = d0.outputPortReg.testBit j := by
    intro val d0 d1 w0 w1 h
    obtain ⟨-, hb, hj⟩ := Write_byte_bits hn val d0.outputPortReg
    simp only [digitalPin.Write, WriteOutputReg_eq, hpin, hmask, Prod.mk.injEq] at h
    obtain ⟨h1, h2, -⟩ := h
    rw [h1] at h2
    subst h2
    exact ⟨hb, hj⟩
  refine ⟨fun val => ?_, ?_⟩
  · obtain ⟨hlt, hb, hj⟩ := Write_byte_bits hn val d.outputPortReg
    refine ⟨_, hlt, hb, hj, ?_, ?_⟩
    · simp only [digitalPin.Write, WriteOutputReg_eq, hpin, hmask]
    · intro hok
      simp only [digitalPin.Write, WriteOutputReg_eq, hpin, hmask, hok, and_self]
  · intro d1 d2 w1 w2 h1 h2
    obtain ⟨a1, a2⟩ := single High d d1 w w1 h1
    obtain ⟨b1, b2⟩ := single Low d1 d2 w1 w2 h2
    refine ⟨by simpa [High, Low] using a1, by simpa [Low] using b1, ?_⟩
    intro j hj hjn
    exact ⟨a2 j hj hjn, (b2 j hj hjn).trans (a2 j hj hjn)⟩

theorem samplePin_issued : samplePin.Issued := ⟨.str "GPIO_3", 0, rfl⟩

/-- C2 on the echoing bus with cached output 0xA5 and the pin of index 3: the
two writes succeed and leave 0xAD and then 0xA5 in the cache. -/
theorem Write_masked_merge_witness :
    samplePin.Issued ∧
    (samplePin.Write High sampleDevice sampleWorld).1 = none ∧
    (samplePin.Write High sampleDevice sampleWorld).2.1.outputPortReg = 0xAD ∧
    (samplePin.Write Low (samplePin.Write High sampleDevice sampleWorld).2.1
      (samplePin.Write High sampleDevice sampleWorld).2.2).1 = none ∧
    (samplePin.Write Low (samplePin.Write High sampleDevice sampleWorld).2.1
      (samplePin.Write High sampleDevice sampleWorld).2.2).2.1.outputPortReg = 0xA5 ∧
    (Nat.testBit 0xAD 3 = true ∧ Nat.testBit 0xA5 3 = false ∧
      ∀ j, j < 8 → j ≠ 3 →
        Nat.testBit 0xAD j = Nat.testBit 0xA5 j ∧ Nat.testBit 0xA5 j = Nat.testBit 0xA5 j) :=
  ⟨samplePin_issued, rfl, rfl, rfl, rfl,
    (Write_masked_merge sampleDevice sampleWorld samplePin samplePin_issued).2
      (samplePin.Write High sampleDevice sampleWorld).2.1
      (samplePin.Write Low (samplePin.Write High sampleDevice sampleWorld).2.1
        (samplePin.Write High sampleDevice sampleWorld).2.2).2.1
      (samplePin.Write High sampleDevice sampleWorld).2.2
      (samplePin.Write Low (samplePin.Write High sampleDevice sampleWorld).2.1
        (samplePin.Write High sampleDevice sampleWorld).2.2).2.2
      rfl rfl⟩

/-- What `WriteConfiguration` does, by the answer of the bus. -/
theorem WriteConfiguration_eq (d : PCA9554 β) (b : Nat) (w : World β) :
    d.WriteConfiguration b w =
      ((d.Bus.WriteByteToReg w.bus d.Addr ConfigurationRegister b).1,
        (match (d.Bus.WriteByteToReg w.bus d.Addr ConfigurationRegister b).1 with
          | some _ => d
          | none => { d with configurationReg := b }),
        { w with bus := (d.Bus.WriteByteToReg w.bus d.Addr ConfigurationRegister b).2,
                 trace := w.trace ++ [Event.busWrite d.Addr ConfigurationRegister b] }) := by
  unfold PCA9554.WriteConfiguration PCA9554.busWrite
  cases h : (d.Bus.WriteByteToReg w.bus d.Addr ConfigurationRegister b).1 <;> simp [h]

/-- What `WritePolarityInversionReg` does, by the answer of the bus. -/
theorem WritePolarityInversionReg_eq (d : PCA9554 β) (b : Nat) (w : World β) :
    d.WritePolarityInversionReg b w =
      ((d.Bus.WriteByteToReg w.bus d.Addr PolarityInvRegister b).1,
        (match (d.Bus.WriteByteToReg w.bus d.Addr PolarityInvRegister b).1 with
          | some _ => d
          | none => { d with polarityInvReg := b }),
        { w with bus := (d.Bus.WriteByteToReg w.bus d.Addr PolarityInvRegister b).2,
                 trace := w.trace ++ [Event.busWrite d.Addr PolarityInvRegister b] }) := by
  unfold PCA9554.WritePolarityInversionReg PCA9554.busWrite
  cases h : (d.Bus.WriteByteToReg w.bus d.Addr PolarityInvRegister b).1 <;> simp [h]

/-- The byte that `SetDirection` sends, for a pin with index `n`. -/
theorem SetDirection_byte_bits {n : Nat} (hn : n < 8) (dir : Int) (x : Nat) :
    (x &&& (255 - 2 ^ n) ||| (if In = dir then 2 ^ n else 0)).testBit n = decide (In = dir) ∧
    ∀ j, j < 8 → j ≠ n →
      (x &&& (255 - 2 ^ n) ||| (if In = dir then 2 ^ n else 0)).testBit j = x.testBit j := by
  refine ⟨?_, ?_⟩
  · rw [testBit_merge hn hn]
    by_cases hv : In = dir <;> simp [hv, testBit_bitMask]
  · intro j hj hjn
    rw [testBit_merge hn hj]
    by_cases hv : In = dir <;> simp [hv, hjn, testBit_bitMask]

/-- What `ReadConfiguration` does, by the answer of the bus. -/
theorem ReadConfiguration_eq (d : PCA9554 β) (w : World β) :
    d.ReadConfiguration w =
      ((d.Bus.ReadByteFromReg w.bus d.Addr ConfigurationRegister).1,
        (match (d.Bus.ReadByteFromReg w.bus d.Addr ConfigurationRegister).1 with
          | .error _ => d
          | .ok conf => { d with configurationReg := conf }),
        { w with bus := (d.Bus.ReadByteFromReg w.bus d.Addr ConfigurationRegister).2,
                 trace := w.trace ++ [Event.busRead d.Addr ConfigurationRegister] }) := by
  unfold PCA9554.ReadConfiguration PCA9554.busRead
  cases h : (d.Bus.ReadByteFromReg w.bus d.Addr ConfigurationRegister).1 <;> simp [h]

/-- `SetDirection` followed by `ReadConfiguration` on an echoing bus. -/
theorem SetDirection_then_read (d : PCA9554 β) (w : World β) (p : digitalPin) (hp : p.Issued)
    (hbus : d.Bus.Echoes) (dir : Int) :
    ∃ (r : Nat) (d1 d2 : PCA9554 β) (w1 w2 : World β),
      p.SetDirection dir d w = (none, d1, w1) ∧ d1.ReadConfiguration w1 = (.ok r, d2, w2) ∧
      d2.configurationReg = r ∧ r.testBit p.n = decide (In = dir) ∧
      ∀ j, j < 8 → j ≠ p.n → r.testBit j = d.configurationReg.testBit j := by
  obtain ⟨hn, hpin, hmask⟩ := Issued_shape hp
  obtain ⟨hb, hj⟩ := SetDirection_byte_bits hn dir d.configurationReg
  obtain ⟨hw, hr⟩ := hbus w.bus d.Addr ConfigurationRegister
    (d.configurationReg &&& (255 - 2 ^ p.n) ||| (if In = dir then 2 ^ p.n else 0))
  have h1 : p.SetDirection dir d w =
      (none, (p.SetDirection dir d w).2.1, (p.SetDirection dir d w).2.2) := by
    simp only [digitalPin.SetDirection, WriteConfiguration_eq, hpin, hmask, hw]
  have h2 : (p.SetDirection dir d w).2.1.ReadConfiguration (p.SetDirection dir d w).2.2 =
      (.ok (d.configurationReg &&& (255 - 2 ^ p.n) ||| (if In = dir then 2 ^ p.n else 0)),
        ((p.SetDirection dir d w).2.1.ReadConfiguration (p.SetDirection dir d w).2.2).2.1,
        ((p.SetDirection dir d w).2.1.ReadConfiguration (p.SetDirection dir d w).2.2).2.2) := by
    simp only [digitalPin.SetDirection, WriteConfiguration_eq, ReadConfiguration_eq, hpin, hmask,
      hw, hr]
  have h3 : ((p.SetDirection dir d w).2.1.ReadConfiguration
      (p.SetDirection dir d w).2.2).2.1.configurationReg =
      d.configurationReg &&& (255 - 2 ^ p.n) ||| (if In = dir then 2 ^ p.n else 0) := by
    simp only [digitalPin.SetDirection, WriteConfiguration_eq, ReadConfiguration_eq, hpin, hmask,
      hw, hr]
  exact ⟨_, _, _, _, _, h1, h2, h3, hb, hj⟩

/-- C3: on a bus that echoes writes, for every device state and every pin `p`
with index `i = p.n`, `SetDirection(In)` succeeds and the `ReadConfiguration`
after it returns a byte with bit `i` set; `SetDirection(Out)` succeeds and the
`ReadConfiguration` after it returns a byte with bit `i` cleared; in both cases
the byte read is also the device's configuration register (the cached
`configurationReg`) afterwards, and every other bit of it is the bit that
register had before the `SetDirection` call. -/
theorem SetDirection_readback (d : PCA9554 β) (w : World β) (p : digitalPin) (hp : p.Issued)
    (hbus : d.Bus.Echoes) :
    (∃ (r : Nat) (d1 d2 : PCA9554 β) (w1 w2 : World β),
      p.SetDirection In d w = (none, d1, w1) ∧ d1.ReadConfiguration w1 = (.ok r, d2, w2) ∧
      d2.configurationReg = r ∧ r.testBit p.n = true ∧
      ∀ j, j < 8 → j ≠ p.n → r.testBit j = d.configurationReg.testBit j) ∧
    (∃ (r : Nat) (d1 d2 : PCA9554 β) (w1 w2 : World β),
      p.SetDirection Out d w = (none, d1, w1) ∧ d1.ReadConfiguration w1 = (.ok r, d2, w2) ∧
      d2.configurationReg = r ∧ r.testBit p.n = false ∧
      ∀ j, j < 8 → j ≠ p.n → r.testBit j = d.configurationReg.testBit j) := by
  refine ⟨?_, ?_⟩
  · simpa using SetDirection_then_read d w p hp hbus In
  · simpa [In, Out] using SetDirection_then_read d w p hp hbus Out

theorem echoBus_echoes : echoBus.Echoes := by
  intro s addr reg val
  simp [echoBus]


/-- What `ReadPolarityInversionReg` does, by the answer of the bus. -/
theorem ReadPolarityInversionReg_eq (d : PCA9554 β) (w : World β) :
    d.ReadPolarityInversionReg w =
      ((d.Bus.ReadByteFromReg w.bus d.Addr PolarityInvRegister).1,
        (match (d.Bus.ReadByteFromReg w.bus d.Addr PolarityInvRegister).1 with
          | .error _ => d
          | .ok reg => { d with polarityInvReg := reg }),
        { w with bus := (d.Bus.ReadByteFromReg w.bus d.Addr PolarityInvRegister).2,
                 trace := w.trace ++ [Event.busRead d.Addr PolarityInvRegister] }) := by
  unfold PCA9554.ReadPolarityInversionReg PCA9554.busRead
  cases h : (d.Bus.ReadByteFromReg w.bus d.Addr PolarityInvRegister).1 <;> simp [h]

/-- What `ReadInputReg` does, by the answer of the bus. -/
theorem ReadInputReg_eq (d : PCA9554 β) (w : World β) :
    d.ReadInputReg w =
      ((d.Bus.ReadByteFromReg w.bus d.Addr InputPortRegister).1,
        (match (d.Bus.ReadByteFromReg w.bus d.Addr InputPortRegister).1 with
          | .error _ => d
          | .ok b => { d with inputPortReg := b }),
        { w with bus := (d.Bus.ReadByteFromReg w.bus d.Addr InputPortRegister).2,
                 trace := w.trace ++ [Event.busRead d.Addr InputPortRegister] }) := by
  unfold PCA9554.ReadInputReg PCA9554.busRead
  cases h : (d.Bus.ReadByteFromReg w.bus d.Addr InputPortRegister).1 <;> simp [h]

/-- What `ReadOutputReg` does, by the answer of the bus. -/
theorem ReadOutputReg_eq (d : PCA9554 β) (w : World β) :
    d.ReadOutputReg w =
      ((d.Bus.ReadByteFromReg w.bus d.Addr OutputPortRegister).1,
        (match (d.Bus.ReadByteFromReg w.bus d.Addr OutputPortRegister).1 with
          | .error _ => d
          | .ok b => { d with outputPortReg := b }),
        { w with bus := (d.Bus.ReadByteFromReg w.bus d.Addr OutputPortRegister).2,
                 trace := w.trace ++ [Event.busRead d.Addr OutputPortRegister] }) := by
  unfold PCA9554.ReadOutputReg PCA9554.busRead
  cases h : (d.Bus.ReadByteFromReg w.bus d.Addr OutputPortRegister).1 <;> simp [h]

/-- C4: each of `WriteConfiguration`, `WritePolarityInversionReg` and
`WriteOutputReg`, for every byte `b`, makes exactly one bus call, a write of `b`
to register index 3, 2, 1 respectively at the device address; if that bus write
fails with `e` the operation returns `e` and the device record, so every cached
register, is unchanged; if it succeeds the operation returns no error and the
device record changes in the matching cached register only, which becomes
`b`. -/
theorem Write_registers (d : PCA9554 β) (w : World β) (b : Nat) :
    ((d.WriteConfiguration b w).2.2 =
        { w with bus := (d.Bus.WriteByteToReg w.bus d.Addr 3 b).2,
                 trace := w.trace ++ [Event.busWrite d.Addr 3 b] } ∧
      (∀ e, (d.Bus.WriteByteToReg w.bus d.Addr 3 b).1 = some e →
        (d.WriteConfiguration b w).1 = some e ∧ (d.WriteConfiguration b w).2.1 = d) ∧
      ((d.Bus.WriteByteToReg w.bus d.Addr 3 b).1 = none →
        (d.WriteConfiguration b w).1 = none ∧
        (d.WriteConfiguration b w).2.1 = { d with configurationReg := b })) ∧
    ((d.WritePolarityInversionReg b w).2.2 =
        { w with bus := (d.Bus.WriteByteToReg w.bus d.Addr 2 b).2,
                 trace := w.trace ++ [Event.busWrite d.Addr 2 b] } ∧
      (∀ e, (d.Bus.WriteByteToReg w.bus d.Addr 2 b).1 = some e →
        (d.WritePolarityInversionReg b w).1 = some e ∧
        (d.WritePolarityInversionReg b w).2.1 = d) ∧
      ((d.Bus.WriteByteToReg w.bus d.Addr 2 b).1 = none →
        (d.WritePolarityInversionReg b w).1 = none ∧
        (d.WritePolarityInversionReg b w).2.1 = { d with polarityInvReg := b })) ∧
    ((d.WriteOutputReg b w).2.2 =
        { w with bus := (d.Bus.WriteByteToReg w.bus d.Addr 1 b).2,
                 trace := w.trace ++ [Event.busWrite d.Addr 1 b] } ∧
      (∀ e, (d.Bus.WriteByteToReg w.bus d.Addr 1 b).1 = some e →
        (d.WriteOutputReg b w).1 = some e ∧ (d.WriteOutputReg b w).2.1 = d) ∧
      ((d.Bus.WriteByteToReg w.bus d.Addr 1 b).1 = none →
        (d.WriteOutputReg b w).1 = none ∧
        (d.WriteOutputReg b w).2.1 = { d with outputPortReg := b })) := by
  rw [WriteConfiguration_eq, WritePolarityInversionReg_eq, WriteOutputReg_eq]
  simp only [ConfigurationRegister, PolarityInvRegister, OutputPortRegister]
  refine ⟨⟨trivial, ?_, ?_⟩, ⟨trivial, ?_, ?_⟩, ⟨trivial, ?_, ?_⟩⟩ <;> intros <;> simp_all

/-- C5: each of `ReadInputReg`, `ReadOutputReg`, `ReadConfiguration` and
`ReadPolarityInversionReg` makes exactly one bus call, a read of register index
0, 1, 3, 2 respectively at the device address; if that read succeeds with `b`
the operation returns `b` and the device record changes in the matching cached
register only, which becomes `b`; if it fails with `e` the operation returns
`e` and the device record, so all four cached registers, is unchanged. -/
theorem Read_registers (d : PCA9554 β) (w : World β) :
    ((d.ReadInputReg w).2.2 =
        { w with bus := (d.Bus.ReadByteFromReg w.bus d.Addr 0).2,
                 trace := w.trace ++ [Event.busRead d.Addr 0] } ∧
      (∀ b, (d.Bus.ReadByteFromReg w.bus d.Addr 0).1 = .ok b →
        (d.ReadInputReg w).1 = .ok b ∧ (d.ReadInputReg w).2.1 = { d with inputPortReg := b }) ∧
      (∀ e, (d.Bus.ReadByteFromReg w.bus d.Addr 0).1 = .error e →
        (d.ReadInputReg w).1 = .error e ∧ (d.ReadInputReg w).2.1 = d)) ∧
    ((d.ReadOutputReg w).2.2 =
        { w with bus := (d.Bus.ReadByteFromReg w.bus d.Addr 1).2,
                 trace := w.trace ++ [Event.busRead d.Addr 1] } ∧
      (∀ b, (d.Bus.ReadByteFromReg w.bus d.Addr 1).1 = .ok b →
        (d.ReadOutputReg w).1 = .ok b ∧ (d.ReadOutputReg w).2.1 = { d with outputPortReg := b }) ∧
      (∀ e, (d.Bus.ReadByteFromReg w.bus d.Addr 1).1 = .error e →
        (d.ReadOutputReg w).1 = .error e ∧ (d.ReadOutputReg w).2.1 = d)) ∧
    ((d.ReadConfiguration w).2.2 =
        { w with bus := (d.Bus.ReadByteFromReg w.bus d.Addr 3).2,
                 trace := w.trace ++ [Event.busRead d.Addr 3] } ∧
      (∀ b, (d.Bus.ReadByteFromReg w.bus d.Addr 3).1 = .ok b →
        (d.ReadConfiguration w).1 = .ok b ∧
        (d.ReadConfiguration w).2.1 = { d with configurationReg := b }) ∧
      (∀ e, (d.Bus.ReadByteFromReg w.bus d.Addr 3).1 = .error e →
        (d.ReadConfiguration w).1 = .error e ∧ (d.ReadConfiguration w).2.1 = d)) ∧
    ((d.ReadPolarityInversionReg w).2.2 =
        { w with bus := (d.Bus.ReadByteFromReg w.bus d.Addr 2).2,
                 trace := w.trace ++ [Event.busRead d.Addr 2] } ∧
      (∀ b, (d.Bus.ReadByteFromReg w.bus d.Addr 2).1 = .ok b →
        (d.ReadPolarityInversionReg w).1 = .ok b ∧
        (d.ReadPolarityInversionReg w).2.1 = { d with polarityInvReg := b }) ∧
      (∀ e, (d.Bus.ReadByteFromReg w.bus d.Addr 2).1 = .error e →
        (d.ReadPolarityInversionReg w).1 = .error e ∧
        (d.ReadPolarityInversionReg w).2.1 = d)) := by
  rw [ReadInputReg_eq, ReadOutputReg_eq, ReadConfiguration_eq, ReadPolarityInversionReg_eq]
  simp only [InputPortRegister, ConfigurationRegister, PolarityInvRegister, OutputPortRegister]
  refine ⟨⟨trivial, ?_, ?_⟩, ⟨trivial, ?_, ?_⟩, ⟨trivial, ?_, ?_⟩, ⟨trivial, ?_, ?_⟩⟩ <;> intros <;> simp_all

/-- C3 on the echoing bus with cached configuration 0x5A and the pin of index 3:
the read-back is 0x5A after `In` and 0x52 after `Out`. -/
theorem SetDirection_readback_witness :
    samplePin.Issued ∧ sampleDevice.Bus.Echoes ∧
    ((samplePin.SetDirection In sampleDevice sampleWorld).2.1.ReadConfiguration
      (samplePin.SetDirection In sampleDevice sampleWorld).2.2).1 = .ok 0x5A ∧
    ((samplePin.SetDirection Out sampleDevice sampleWorld).2.1.ReadConfiguration
      (samplePin.SetDirection Out sampleDevice sampleWorld).2.2).1 = .ok 0x52 ∧
    ((∃ (r : Nat) (d1 d2 : PCA9554 (Nat → Nat → Nat)) (w1 w2 : World (Nat → Nat → Nat)),
      samplePin.SetDirection In sampleDevice sampleWorld = (none, d1, w1) ∧
      d1.ReadConfiguration w1 = (.ok r, d2, w2) ∧ d2.configurationReg = r ∧ r.testBit 3 = true ∧
      ∀ j, j < 8 → j ≠ 3 → r.testBit j = Nat.testBit 0x5A j) ∧
    (∃ (r : Nat) (d1 d2 : PCA9554 (Nat → Nat → Nat)) (w1 w2 : World (Nat → Nat → Nat)),
      samplePin.SetDirection Out sampleDevice sampleWorld = (none, d1, w1) ∧
      d1.ReadConfiguration w1 = (.ok r, d2, w2) ∧ d2.configurationReg = r ∧ r.testBit 3 = false ∧
      ∀ j, j < 8 → j ≠ 3 → r.testBit j = Nat.testBit 0x5A j)) :=
  ⟨samplePin_issued, echoBus_echoes, rfl, rfl,
    SetDirection_readback sampleDevice sampleWorld samplePin samplePin_issued echoBus_echoes⟩

/-- C4 on the bus where every transfer fails and on the echoing bus, byte
0x0F. -/
theorem Write_registers_witness :
    ((deadDevice.WriteConfiguration 0x0F (World.start ())).1 = some "i2c: no acknowledge" ∧
      (deadDevice.WriteConfiguration 0x0F (World.start ())).2.1 = deadDevice) ∧
    ((deadDevice.WritePolarityInversionReg 0x0F (World.start ())).1 = some "i2c: no acknowledge" ∧
      (deadDevice.WritePolarityInversionReg 0x0F (World.start ())).2.1 = deadDevice) ∧
    ((deadDevice.WriteOutputReg 0x0F (World.start ())).1 = some "i2c: no acknowledge" ∧
      (deadDevice.WriteOutputReg 0x0F (World.start ())).2.1 = deadDevice) ∧
    ((sampleDevice.WriteConfiguration 0x0F sampleWorld).1 = none ∧
      (sampleDevice.WriteConfiguration 0x0F sampleWorld).2.1 =
        { sampleDevice with configurationReg := 0x0F }) ∧
    ((sampleDevice.WritePolarityInversionReg 0x0F sampleWorld).1 = none ∧
      (sampleDevice.WritePolarityInversionReg 0x0F sampleWorld).2.1 =
        { sampleDevice with polarityInvReg := 0x0F }) ∧
    ((sampleDevice.WriteOutputReg 0x0F sampleWorld).1 = none ∧
      (sampleDevice.WriteOutputReg 0x0F sampleWorld).2.1 =
        { sampleDevice with outputPortReg := 0x0F }) :=
  ⟨(Write_registers deadDevice (World.start ()) 0x0F).1.2.1 _ rfl,
    (Write_registers deadDevice (World.start ()) 0x0F).2.1.2.1 _ rfl,
    (Write_registers deadDevice (World.start ()) 0x0F).2.2.2.1 _ rfl,
    (Write_registers sampleDevice sampleWorld 0x0F).1.2.2 rfl,
    (Write_registers sampleDevice sampleWorld 0x0F).2.1.2.2 rfl,
    (Write_registers sampleDevice sampleWorld 0x0F).2.2.2.2 rfl⟩

/-- C5 on the bus where every transfer fails and on the echoing bus in front
of a chip whose register `r` holds `0xC0 + r`. -/
theorem Read_registers_witness :
    ((deadDevice.ReadInputReg (World.start ())).1 = .error "i2c: no acknowledge" ∧
      (deadDevice.ReadInputReg (World.start ())).2.1 = deadDevice) ∧
    ((deadDevice.ReadOutputReg (World.start ())).1 = .error "i2c: no acknowledge" ∧
      (deadDevice.ReadOutputReg (World.start ())).2.1 = deadDevice) ∧
    ((deadDevice.ReadConfiguration (World.start ())).1 = .error "i2c: no acknowledge" ∧
      (deadDevice.ReadConfiguration (World.start ())).2.1 = deadDevice) ∧
    ((deadDevice.ReadPolarityInversionReg (World.start ())).1 = .error "i2c: no acknowledge" ∧
      (deadDevice.ReadPolarityInversionReg (World.start ())).2.1 = deadDevice) ∧
    ((sampleDevice.ReadInputReg liveWorld).1 = .ok 0xC0 ∧
      (sampleDevice.ReadInputReg liveWorld).2.1 = { sampleDevice with inputPortReg := 0xC0 }) ∧
    ((sampleDevice.ReadOutputReg liveWorld).1 = .ok 0xC1 ∧
      (sampleDevice.ReadOutputReg liveWorld).2.1 = { sampleDevice with outputPortReg := 0xC1 }) ∧
    ((sampleDevice.ReadConfiguration liveWorld).1 = .ok 0xC3 ∧
      (sampleDevice.ReadConfiguration liveWorld).2.1 =
        { sampleDevice with configurationReg := 0xC3 }) ∧
    ((sampleDevice.ReadPolarityInversionReg liveWorld).1 = .ok 0xC2 ∧
      (sampleDevice.ReadPolarityInversionReg liveWorld).2.1 =
        { sampleDevice with polarityInvReg := 0xC2 }) :=
  ⟨(Read_registers deadDevice (World.start ())).1.2.2 _ rfl,
    (Read_registers deadDevice (World.start ())).2.1.2.2 _ rfl,
    (Read_registers deadDevice (World.start ())).2.2.1.2.2 _ rfl,
    (Read_registers deadDevice (World.start ())).2.2.2.2.2 _ rfl,
    (Read_registers sampleDevice liveWorld).1.2.1 _ rfl,
    (Read_registers sampleDevice liveWorld).2.1.2.1 _ rfl,
    (Read_registers sampleDevice liveWorld).2.2.1.2.1 _ rfl,
    (Read_registers sampleDevice liveWorld).2.2.2.2.1 _ rfl⟩

/-- C6: on a device whose interrupt pin is already bound, `SetInteruptPin` for
a second pin returns an error and leaves the device record and the world as
they were: no bus access and no call on the second pin is made (the trace and
the bus state are unchanged) and the originally bound pin stays bound. -/
theorem SetInteruptPin_conflict (d : PCA9554 β) (w : World β) (ip pin2 : HostPin)
    (handler2 : Nat) (h : d.interruptPin = some ip) :
    (∃ e, d.SetInteruptPin pin2 handler2 w = (some e, d, w)) ∧
    (d.SetInteruptPin pin2 handler2 w).2.2.trace = w.trace ∧
    (d.SetInteruptPin pin2 handler2 w).2.2.bus = w.bus ∧
    (d.SetInteruptPin pin2 handler2 w).2.1.interruptPin = some ip := by
  have e : d.SetInteruptPin pin2 handler2 w =
      (some ("pca9554: interrupt pin has already been set to " ++ toString ip.N), d, w) := by
    unfold PCA9554.SetInteruptPin
    rw [h]
  rw [e]
  exact ⟨⟨_, rfl⟩, rfl, rfl, h⟩

/-- C6 after a first, successful binding of host line 17: binding line 27 is
refused, the trace still holds only the two calls of the first binding. -/
theorem SetInteruptPin_conflict_witness :
    (sampleDevice.SetInteruptPin irqPin 1 sampleWorld).1 = none ∧
    (sampleDevice.SetInteruptPin irqPin 1 sampleWorld).2.1.interruptPin = some irqPin ∧
    ((∃ e, (sampleDevice.SetInteruptPin irqPin 1 sampleWorld).2.1.SetInteruptPin irqPin2 2
        (sampleDevice.SetInteruptPin irqPin 1 sampleWorld).2.2 =
          (some e, (sampleDevice.SetInteruptPin irqPin 1 sampleWorld).2.1,
            (sampleDevice.SetInteruptPin irqPin 1 sampleWorld).2.2)) ∧
      ((sampleDevice.SetInteruptPin irqPin 1 sampleWorld).2.1.SetInteruptPin irqPin2 2
        (sampleDevice.SetInteruptPin irqPin 1 sampleWorld).2.2).2.2.trace =
          [Event.hostSetDirection irqPin In, Event.hostWatch irqPin EdgeFalling 1] ∧
      ((sampleDevice.SetInteruptPin irqPin 1 sampleWorld).2.1.SetInteruptPin irqPin2 2
        (sampleDevice.SetInteruptPin irqPin 1 sampleWorld).2.2).2.2.bus = sampleWorld.bus ∧
      ((sampleDevice.SetInteruptPin irqPin 1 sampleWorld).2.1.SetInteruptPin irqPin2 2
        (sampleDevice.SetInteruptPin irqPin 1 sampleWorld).2.2).2.1.interruptPin = some irqPin) :=
  ⟨rfl, rfl,
    SetInteruptPin_conflict (sampleDevice.SetInteruptPin irqPin 1 sampleWorld).2.1
      (sampleDevice.SetInteruptPin irqPin 1 sampleWorld).2.2 irqPin irqPin2 2 rfl⟩

/-! ## Dispatch -/

theorem and_bitMask_ne_zero (n b : Nat) : (2 ^ n &&& b ≠ 0) ↔ b.testBit n = true := by
  constructor
  · intro h
    by_contra hb
    apply h
    apply Nat.eq_of_testBit_eq
    intro i
    rw [Nat.testBit_and, testBit_bitMask, Nat.zero_testBit]
    by_cases hi : i = n
    · subst hi
      simpa using hb
    · simp [hi]
  · intro hb h
    have := congrArg (fun x => x.testBit n) h
    simp [testBit_bitMask, hb] at this

theorem mem_handleEntry {b : Nat} {e : Sigma (fun _ : PinValue => Nat)} {ev : Event}
    (h : ev ∈ interruptListener.handleEntry b e) :
    ∃ p, e.1 = .own p ∧ ev = Event.pinHandler e.2 (.own p) ∧ p.pin &&& b ≠ 0 := by
  unfold interruptListener.handleEntry at h
  split at h
  · next pin hk =>
    split at h
    · next hb =>
      simp only [List.mem_singleton] at h
      exact ⟨pin, hk, by rw [h, hk], hb⟩
    · cases h
  · cases h

theorem mem_handle_entries {b : Nat} {es : List (Sigma (fun _ : PinValue => Nat))} {ev : Event}
    (h : ev ∈ es.flatMap (interruptListener.handleEntry b)) :
    ∃ p hd, ev = Event.pinHandler hd (.own p) ∧
      (⟨.own p, hd⟩ : Sigma (fun _ : PinValue => Nat)) ∈ es ∧ p.pin &&& b ≠ 0 := by
  rw [List.mem_flatMap] at h
  obtain ⟨e, he, hin⟩ := h
  obtain ⟨p, hk, hcall, hb⟩ := mem_handleEntry hin
  obtain ⟨k, hd⟩ := e
  simp only at hk hcall
  subst hk
  exact ⟨p, hd, hcall, he, hb⟩

theorem count_handle_entries (b : Nat) (p : digitalPin) (hd : Nat) :
    ∀ (es : List (Sigma (fun _ : PinValue => Nat))), es.NodupKeys →
      (⟨.own p, hd⟩ : Sigma (fun _ : PinValue => Nat)) ∈ es →
      (es.flatMap (interruptListener.handleEntry b)).count (Event.pinHandler hd (.own p)) =
        if p.pin &&& b ≠ 0 then 1 else 0 := by
  intro es
  induction es with
  | nil => intro _ h; cases h
  | cons e es ih =>
    intro hnd hmem
    rw [List.nodupKeys_cons] at hnd
    obtain ⟨hnot, hnd⟩ := hnd
    rw [List.flatMap_cons, List.count_append]
    rcases List.mem_cons.1 hmem with heq | htail
    · subst heq
      have hrest : (es.flatMap (interruptListener.handleEntry b)).count
          (Event.pinHandler hd (.own p)) = 0 := by
        apply List.count_eq_zero_of_not_mem
        intro hin
        obtain ⟨q, hq, hev, hmem2, -⟩ := mem_handle_entries hin
        injection hev with h1 h2
        injection h2 with h2
        subst h1 h2
        exact hnot (List.mem_keys_of_mem hmem2)
      rw [hrest]
      unfold interruptListener.handleEntry
      by_cases hb : p.pin &&& b ≠ 0 <;> simp [hb]
    · have hne : e.1 ≠ .own p := by
        intro h
        exact hnot (h ▸ List.mem_keys_of_mem htail)
      have hfirst : (interruptListener.handleEntry b e).count
          (Event.pinHandler hd (.own p)) = 0 := by
        apply List.count_eq_zero_of_not_mem
        intro hin
        obtain ⟨q, hq, hev, -⟩ := mem_handleEntry hin
        injection hev with h1 h2
        exact hne (hq.trans h2.symm)
      rw [hfirst, ih hnd htail, Nat.zero_add]

/-- Every call `handle` makes is the call of a registered pin whose bit is set. -/
theorem handle_dispatch_bits (l : interruptListener) (b : Nat)
    (hl : ∀ p, PinValue.own p ∈ l.interruptablePins → p.Issued) :
    ∀ ev, ev ∈ l.handle b →
      ∃ p hd, ev = Event.pinHandler hd (.own p) ∧
        l.interruptablePins.lookup (.own p) = some hd ∧ b.testBit p.n = true := by
  intro ev hev
  obtain ⟨p, hd, hev, hmem, hb⟩ := mem_handle_entries hev
  have hlook : l.interruptablePins.lookup (.own p) = some hd := AList.mem_lookup_iff.2 hmem
  have hin : PinValue.own p ∈ l.interruptablePins :=
    AList.mem_keys.2 (List.mem_keys_of_mem hmem)
  rw [(Issued_shape (hl p hin)).2.1] at hb
  exact ⟨p, hd, hev, hlook, (and_bitMask_ne_zero p.n b).1 hb⟩

/-- C7: for every registration map whose `*digitalPin` keys are pins issued by
`DigitalPin`, and every byte `b`, `handle(b)` calls the handler registered for a
pin `p`, with `p` as argument, exactly once if bit `p.n` of `b` is set and not at
all otherwise; every call it makes is such a call of a registered pin whose bit
is set; and when no registered pin has its bit set in `b` it makes no call. -/
theorem handle_dispatch (l : interruptListener) (b : Nat)
    (hl : ∀ p, PinValue.own p ∈ l.interruptablePins → p.Issued) :
    (∀ (p : digitalPin) (hd : Nat), l.interruptablePins.lookup (.own p) = some hd →
      (l.handle b).count (Event.pinHandler hd (.own p)) = if b.testBit p.n then 1 else 0) ∧
    (∀ ev, ev ∈ l.handle b →
      ∃ p hd, ev = Event.pinHandler hd (.own p) ∧
        l.interruptablePins.lookup (.own p) = some hd ∧ b.testBit p.n = true) ∧
    ((∀ p, PinValue.own p ∈ l.interruptablePins → b.testBit p.n = false) → l.handle b = []) := by
  have bit : ∀ p, PinValue.own p ∈ l.interruptablePins →
      ((p.pin &&& b ≠ 0) ↔ b.testBit p.n = true) := by
    intro p hp
    rw [(Issued_shape (hl p hp)).2.1]
    exact and_bitMask_ne_zero p.n b
  have part2 := handle_dispatch_bits l b hl
  refine ⟨?_, part2, ?_⟩
  · intro p hd hlook
    have hmem : (⟨.own p, hd⟩ : Sigma (fun _ : PinValue => Nat)) ∈ l.interruptablePins.entries :=
      AList.mem_lookup_iff.1 hlook
    have hin : PinValue.own p ∈ l.interruptablePins :=
      AList.mem_keys.2 (List.mem_keys_of_mem hmem)
    have := count_handle_entries b p hd l.interruptablePins.entries l.interruptablePins.nodupKeys hmem
    unfold interruptListener.handle
    rw [this]
    by_cases hb : b.testBit p.n = true
    · simp [hb, (bit p hin).2 hb]
    · have : ¬ (p.pin &&& b ≠ 0) := fun h => hb ((bit p hin).1 h)
      simp [hb, this]
  · intro hnone
    apply List.eq_nil_iff_forall_not_mem.2
    intro ev hev
    obtain ⟨p, hd, -, hlook, hb⟩ := part2 ev hev
    have hin : PinValue.own p ∈ l.interruptablePins := by
      rw [← AList.lookup_isSome, hlook]; rfl
    rw [hnone p hin] at hb
    cases hb
theorem samplePin1_issued : samplePin1.Issued := ⟨.str "GPIO_1", 1, rfl⟩

theorem samplePin2_issued : samplePin2.Issued := ⟨.str "GPIO_2", 2, rfl⟩

theorem mem_sampleListener {p : digitalPin}
    (h : PinValue.own p ∈ sampleListener.interruptablePins) : p = samplePin1 ∨ p = samplePin2 := by
  simp only [sampleListener, interruptListener.registerInterrupt, defaultInterruptListener,
    AList.mem_insert, AList.not_mem_empty, or_false, PinValue.own.injEq] at h
  exact h.symm

theorem sampleListener_issued :
    ∀ p, PinValue.own p ∈ sampleListener.interruptablePins → p.Issued := by
  intro p hp
  rcases mem_sampleListener hp with h | h <;> subst h
  · exact samplePin1_issued
  · exact samplePin2_issued

/-- C7 with pins registered at indices 1 and 2: byte `0b00000110` calls exactly
the two handlers, once each; byte `0b00001001` calls nothing. -/
theorem handle_dispatch_witness :
    (∀ p, PinValue.own p ∈ sampleListener.interruptablePins → p.Issued) ∧
    sampleListener.handle 0b00000110 =
      [Event.pinHandler 12 (.own samplePin2), Event.pinHandler 11 (.own samplePin1)] ∧
    (sampleListener.handle 0b00000110).count (Event.pinHandler 11 (.own samplePin1)) = 1 ∧
    (sampleListener.handle 0b00000110).count (Event.pinHandler 12 (.own samplePin2)) = 1 ∧
    (sampleListener.handle 0b00000100).count (Event.pinHandler 11 (.own samplePin1)) = 0 ∧
    sampleListener.handle 0b00001001 = [] :=
  ⟨sampleListener_issued, rfl,
    (handle_dispatch sampleListener 0b00000110 sampleListener_issued).1 samplePin1 11 rfl,
    (handle_dispatch sampleListener 0b00000110 sampleListener_issued).1 samplePin2 12 rfl,
    (handle_dispatch sampleListener 0b00000100 sampleListener_issued).1 samplePin1 11 rfl,
    (handle_dispatch sampleListener 0b00001001 sampleListener_issued).2.2 (fun p hp => by
      rcases mem_sampleListener hp with h | h <;> subst h <;> rfl)⟩

theorem andNot_clearMask {n : Nat} (hn : n < 8) (r : Nat) :
    (0 = andNot r (255 - 2 ^ n)) ↔ r.testBit n = false := by
  have hx : 255 ^^^ (255 - 2 ^ n) = 2 ^ n := by
    interval_cases n <;> decide
  unfold andNot
  rw [hx, Nat.and_comm]
  have := and_bitMask_ne_zero n r
  constructor
  · intro h
    by_contra hb
    exact (this.2 (by simpa using hb)) h.symm
  · intro h
    by_contra hb
    have := this.1 (fun h0 => hb h0.symm)
    rw [h] at this
    cases this

/-- What `Read` does, by the answer of the bus. -/
theorem Read_eq (p : digitalPin) (d : PCA9554 β) (w : World β) :
    p.Read d w =
      ((match (d.Bus.ReadByteFromReg w.bus d.Addr InputPortRegister).1 with
          | .error e => .error e
          | .ok reg => .ok (if 0 = andNot reg p.mask then Low else High)),
        (match (d.Bus.ReadByteFromReg w.bus d.Addr InputPortRegister).1 with
          | .error _ => d
          | .ok reg => { d with inputPortReg := reg }),
        { w with bus := (d.Bus.ReadByteFromReg w.bus d.Addr InputPortRegister).2,
                 trace := w.trace ++ [Event.busRead d.Addr InputPortRegister] }) := by
  unfold digitalPin.Read
  rw [ReadInputReg_eq]
  cases h : (d.Bus.ReadByteFromReg w.bus d.Addr InputPortRegister).1 with
  | error e => rfl
  | ok reg =>
    simp only
    split <;> rfl

/-- C8: for every pin `p` with index `i = p.n`, `Read` makes exactly one bus
call, a read of the input register (index 0); if it succeeds with byte `r`,
`Read` returns `High` when bit `i` of `r` is 1 and `Low` when it is 0, whatever
the other bits of `r` are, and the cached input register becomes `r`, nothing
else in the device changing; if the bus read fails with `e`, `Read` returns `e`
and the device is unchanged. -/
theorem Read_level (d : PCA9554 β) (w : World β) (p : digitalPin) (hp : p.Issued) :
    (p.Read d w).2.2 =
      { w with bus := (d.Bus.ReadByteFromReg w.bus d.Addr 0).2,
               trace := w.trace ++ [Event.busRead d.Addr 0] } ∧
    (∀ r, (d.Bus.ReadByteFromReg w.bus d.Addr 0).1 = .ok r →
      (p.Read d w).1 = .ok (if r.testBit p.n then High else Low) ∧
      (p.Read d w).2.1 = { d with inputPortReg := r }) ∧
    (∀ e, (d.Bus.ReadByteFromReg w.bus d.Addr 0).1 = .error e →
      (p.Read d w).1 = .error e ∧ (p.Read d w).2.1 = d) := by
  obtain ⟨hn, -, hmask⟩ := Issued_shape hp
  rw [Read_eq, hmask]
  simp only [InputPortRegister]
  refine ⟨trivial, ?_, ?_⟩
  · intro r hr
    simp only [hr, andNot_clearMask hn r, and_true]
    by_cases hb : r.testBit p.n = true
    · simp [hb]
    · simp [hb]
  · intro e he
    simp only [he, and_self]

/-- C8 on a chip whose input register holds `0b00000110`: the pin of index 1
reads `High`, the pin of index 3 reads `Low`; on the failing bus `Read` fails. -/
theorem Read_level_witness :
    samplePin1.Issued ∧ samplePin.Issued ∧
    ((samplePin1.Read sampleDevice inputWorld).1 = .ok High ∧
      (samplePin1.Read sampleDevice inputWorld).2.1 = { sampleDevice with inputPortReg := 0x06 }) ∧
    ((samplePin.Read sampleDevice inputWorld).1 = .ok Low ∧
      (samplePin.Read sampleDevice inputWorld).2.1 = { sampleDevice with inputPortReg := 0x06 }) ∧
    ((samplePin.Read deadDevice (World.start ())).1 = .error "i2c: no acknowledge" ∧
      (samplePin.Read deadDevice (World.start ())).2.1 = deadDevice) :=
  ⟨samplePin1_issued, samplePin_issued,
    (Read_level sampleDevice inputWorld samplePin1 samplePin1_issued).2.1 0x06 rfl,
    (Read_level sampleDevice inputWorld samplePin samplePin_issued).2.1 0x06 rfl,
    (Read_level deadDevice (World.start ()) samplePin samplePin_issued).2.2 _ rfl⟩

/-- A successful `WriteConfiguration`. -/
theorem WriteConfiguration_ok (d : PCA9554 β) (b : Nat) (w : World β)
    (h : (d.Bus.WriteByteToReg w.bus d.Addr ConfigurationRegister b).1 = none) :
    d.WriteConfiguration b w =
      (none, { d with configurationReg := b },
        { w with bus := (d.Bus.WriteByteToReg w.bus d.Addr ConfigurationRegister b).2,
                 trace := w.trace ++ [Event.busWrite d.Addr ConfigurationRegister b] }) := by
  rw [WriteConfiguration_eq, h]

/-- A successful `Write`. -/
theorem Write_ok (p : digitalPin) (val : Int) (d : PCA9554 β) (w : World β)
    (h : (d.Bus.WriteByteToReg w.bus d.Addr OutputPortRegister
      (d.outputPortReg &&& p.mask ||| (if val ≠ Low then p.pin else 0))).1 = none) :
    p.Write val d w =
      (none, { d with outputPortReg := d.outputPortReg &&& p.mask ||| (if val ≠ Low then p.pin else 0) },
        { w with
          bus := (d.Bus.WriteByteToReg w.bus d.Addr OutputPortRegister
            (d.outputPortReg &&& p.mask ||| (if val ≠ Low then p.pin else 0))).2,
          trace := w.trace ++ [Event.busWrite d.Addr OutputPortRegister
            (d.outputPortReg &&& p.mask ||| (if val ≠ Low then p.pin else 0))] }) := by
  unfold digitalPin.Write
  rw [WriteOutputReg_eq, h]

/-- C9: on a bus whose writes succeed, starting from `New(bus, 0x38)`,
`WriteConfiguration(0x00)` succeeds and leaves the cached configuration
register at 0x00; `Write(High)` on the pin with index 6 and then `Write(Low)`
on the pin with index 7 succeed and leave the cached output register at 0x40
(the configuration cache still 0x00). -/
theorem lightdemo_output (bus : I2CBus β) (hbus : bus.WritesSucceed) (w : World β)
    (p6 p7 : digitalPin) (h6 : p6.Issued) (h7 : p7.Issued) (hn6 : p6.n = 6) (hn7 : p7.n = 7) :
    ∃ (d1 d2 d3 : PCA9554 β) (w1 w2 w3 : World β),
      (New bus 0x38).WriteConfiguration 0x00 w = (none, d1, w1) ∧
      d1.configurationReg = 0x00 ∧
      p6.Write High d1 w1 = (none, d2, w2) ∧
      p7.Write Low d2 w2 = (none, d3, w3) ∧
      d3.outputPortReg = 0x40 ∧ d3.configurationReg = 0x00 := by
  obtain ⟨-, hpin6, hmask6⟩ := Issued_shape h6
  obtain ⟨-, hpin7, hmask7⟩ := Issued_shape h7
  rw [hn6] at hpin6 hmask6
  rw [hn7] at hpin7 hmask7
  refine ⟨_, _, _, _, _, _, WriteConfiguration_ok _ _ _ (hbus _ _ _ _), rfl,
    Write_ok _ _ _ _ (hbus _ _ _ _), Write_ok _ _ _ _ (hbus _ _ _ _), ?_, rfl⟩
  simp only [New, hpin6, hmask6, hpin7, hmask7, High, Low]
  decide

theorem echoBus_writesSucceed : echoBus.WritesSucceed := by
  intro s addr reg val
  rfl

theorem samplePin6_issued : samplePin6.Issued := ⟨.str "GPIO_6", 6, rfl⟩

theorem samplePin7_issued : samplePin7.Issued := ⟨.str "GPIO_7", 7, rfl⟩

/-- C9 on the echoing bus with the pins `DigitalPin("GPIO_6")` and
`DigitalPin("GPIO_7")`. -/
theorem lightdemo_output_witness :
    echoBus.WritesSucceed ∧ samplePin6.Issued ∧ samplePin7.Issued ∧
    (samplePin7.Write Low
      (samplePin6.Write High ((New echoBus 0x38).WriteConfiguration 0x00 sampleWorld).2.1
        ((New echoBus 0x38).WriteConfiguration 0x00 sampleWorld).2.2).2.1
      (samplePin6.Write High ((New echoBus 0x38).WriteConfiguration 0x00 sampleWorld).2.1
        ((New echoBus 0x38).WriteConfiguration 0x00 sampleWorld).2.2).2.2).2.1.outputPortReg
      = 0x40 ∧
    ∃ (d1 d2 d3 : PCA9554 (Nat → Nat → Nat)) (w1 w2 w3 : World (Nat → Nat → Nat)),
      (New echoBus 0x38).WriteConfiguration 0x00 sampleWorld = (none, d1, w1) ∧
      d1.configurationReg = 0x00 ∧
      samplePin6.Write High d1 w1 = (none, d2, w2) ∧
      samplePin7.Write Low d2 w2 = (none, d3, w3) ∧
      d3.outputPortReg = 0x40 ∧ d3.configurationReg = 0x00 :=
  ⟨echoBus_writesSucceed, samplePin6_issued, samplePin7_issued, rfl,
    lightdemo_output echoBus echoBus_writesSucceed sampleWorld samplePin6 samplePin7
      samplePin6_issued samplePin7_issued rfl rfl⟩

/-- What the interrupt callback does, by the answer of the bus. -/
theorem interruptCallback_eq (d : PCA9554 β) (handler : Nat) (w : World β) :
    d.interruptCallback handler w =
      match (d.Bus.ReadByteFromReg w.bus d.Addr InputPortRegister).1 with
      | .error _ =>
        (.exited, d,
          { w with bus := (d.Bus.ReadByteFromReg w.bus d.Addr InputPortRegister).2,
                   trace := w.trace ++ [Event.busRead d.Addr InputPortRegister] ++
                     [Event.fatal "pca9554: can't read input register"] })
      | .ok i =>
        (.returned, { d with inputPortReg := i },
          { w with bus := (d.Bus.ReadByteFromReg w.bus d.Addr InputPortRegister).2,
                   trace := w.trace ++ [Event.busRead d.Addr InputPortRegister] ++
                     [Event.topHandler handler (i &&& d.configurationReg)] ++
                     d.listener.handle (i &&& d.configurationReg) }) := by
  unfold PCA9554.interruptCallback
  rw [ReadInputReg_eq]
  cases h : (d.Bus.ReadByteFromReg w.bus d.Addr InputPortRegister).1 <;> rfl

/-- C10: when the callback installed by `SetInteruptPin` runs and the bus read
of the input register (index 0) succeeds with byte `r`, the callback returns,
and with `b = r & configurationReg` (the cached configuration register) it
makes, after the bus read, the call `handler(b)` and then the calls of
`listener.handle(b)`, in this order and nothing else; the configuration cache
and the registrations are left as they were.  Every bit set in `b` is set in the
configuration register (the pin is configured as input); every pin handler
dispatched belongs to a registered pin whose configuration bit is 1; no handler
of a pin whose configuration bit is 0 (output) is dispatched.  The registered
`*digitalPin` keys are taken to be pins issued by `DigitalPin`. -/
theorem interruptCallback_masks (d : PCA9554 β) (w : World β) (handler r : Nat)
    (hr : (d.Bus.ReadByteFromReg w.bus d.Addr 0).1 = .ok r)
    (hl : ∀ p, PinValue.own p ∈ d.listener.interruptablePins → p.Issued) :
    ∃ b : Nat, b = r &&& d.configurationReg ∧
      (d.interruptCallback handler w).1 = .returned ∧
      (d.interruptCallback handler w).2.2.trace =
        w.trace ++ [Event.busRead d.Addr 0] ++ [Event.topHandler handler b] ++
          d.listener.handle b ∧
      (d.interruptCallback handler w).2.1.configurationReg = d.configurationReg ∧
      (d.interruptCallback handler w).2.1.listener = d.listener ∧
      (∀ j, b.testBit j = true → d.configurationReg.testBit j = true) ∧
      (∀ ev, ev ∈ d.listener.handle b →
        ∃ p hd, ev = Event.pinHandler hd (.own p) ∧
          d.listener.interruptablePins.lookup (.own p) = some hd ∧
          d.configurationReg.testBit p.n = true) ∧
      (∀ p hd, d.configurationReg.testBit p.n = false →
        Event.pinHandler hd (.own p) ∉ d.listener.handle b) := by
  have hbit : ∀ j, (r &&& d.configurationReg).testBit j = true →
      d.configurationReg.testBit j = true := by
    intro j hj
    rw [Nat.testBit_and, Bool.and_eq_true] at hj
    exact hj.2
  have hdisp := (handle_dispatch_bits d.listener (r &&& d.configurationReg) hl)
  have hr0 : (d.Bus.ReadByteFromReg w.bus d.Addr InputPortRegister).1 = .ok r := hr
  refine ⟨_, rfl, ?_, ?_, ?_, ?_, hbit, ?_, ?_⟩
  · rw [interruptCallback_eq, hr0]
  · rw [interruptCallback_eq, hr0]
    rfl
  · rw [interruptCallback_eq, hr0]
  · rw [interruptCallback_eq, hr0]
  · intro ev hev
    obtain ⟨p, hd, h1, h2, h3⟩ := hdisp ev hev
    exact ⟨p, hd, h1, h2, hbit _ h3⟩
  · intro p hd hout hin
    obtain ⟨q, hq, h1, -, h3⟩ := hdisp _ hin
    injection h1 with h1 h2
    injection h2 with h2
    subst h2
    rw [hbit _ h3] at hout
    cases hout
theorem watchingDevice_issued :
    ∀ p, PinValue.own p ∈ watchingDevice.listener.interruptablePins → p.Issued :=
  sampleListener_issued

/-- C10 with pins 1 and 2 watched, pin 1 configured as input and pin 2 as
output, input register `0b00000110`: the byte is `0b00000010`, the top-level
handler gets it, and only the handler of pin 1 is dispatched. -/
theorem interruptCallback_masks_witness :
    (watchingDevice.Bus.ReadByteFromReg inputWorld.bus watchingDevice.Addr 0).1 = .ok 0x06 ∧
    (∀ p, PinValue.own p ∈ watchingDevice.listener.interruptablePins → p.Issued) ∧
    (watchingDevice.interruptCallback 7 inputWorld).2.2.trace =
      [Event.busRead 0x38 0, Event.topHandler 7 0x02, Event.pinHandler 11 (.own samplePin1)] ∧
    ∃ b : Nat, b = 0x06 &&& 0x02 ∧
      (watchingDevice.interruptCallback 7 inputWorld).1 = .returned ∧
      (watchingDevice.interruptCallback 7 inputWorld).2.2.trace =
        [] ++ [Event.busRead 0x38 0] ++ [Event.topHandler 7 b] ++ sampleListener.handle b ∧
      (watchingDevice.interruptCallback 7 inputWorld).2.1.configurationReg = 0x02 ∧
      (watchingDevice.interruptCallback 7 inputWorld).2.1.listener = sampleListener ∧
      (∀ j, b.testBit j = true → Nat.testBit 0x02 j = true) ∧
      (∀ ev, ev ∈ sampleListener.handle b →
        ∃ p hd, ev = Event.pinHandler hd (.own p) ∧
          sampleListener.interruptablePins.lookup (.own p) = some hd ∧
          Nat.testBit 0x02 p.n = true) ∧
      (∀ p hd, Nat.testBit 0x02 p.n = false →
        Event.pinHandler hd (.own p) ∉ sampleListener.handle b) :=
  ⟨rfl, watchingDevice_issued, rfl,
    interruptCallback_masks watchingDevice inputWorld 7 0x06 rfl watchingDevice_issued⟩

/-- C11: when the callback installed by `SetInteruptPin` runs and the bus read
of the input register fails, the callback does not return: after the failed bus
read it reports the fatal condition (`glog.Fatal`, which ends the process) and
does nothing else.  Neither the top-level handler nor any pin handler is called,
and the device record, so every cached register, is unchanged. -/
theorem interruptCallback_fatal (d : PCA9554 β) (w : World β) (handler : Nat) (e : Error)
    (he : (d.Bus.ReadByteFromReg w.bus d.Addr 0).1 = .error e) :
    (d.interruptCallback handler w).1 = .exited ∧
    (d.interruptCallback handler w).2.1 = d ∧
    (d.interruptCallback handler w).2.2.trace =
      w.trace ++ [Event.busRead d.Addr 0, Event.fatal "pca9554: can't read input register"] ∧
    (∀ h b, Event.topHandler h b ∉
      (d.interruptCallback handler w).2.2.trace.drop w.trace.length) ∧
    (∀ h k, Event.pinHandler h k ∉
      (d.interruptCallback handler w).2.2.trace.drop w.trace.length) := by
  have he0 : (d.Bus.ReadByteFromReg w.bus d.Addr InputPortRegister).1 = .error e := he
  have ht : (d.interruptCallback handler w).2.2.trace =
      w.trace ++ [Event.busRead d.Addr 0, Event.fatal "pca9554: can't read input register"] := by
    rw [interruptCallback_eq, he0]
    simp [InputPortRegister]
  refine ⟨?_, ?_, ht, ?_, ?_⟩
  · rw [interruptCallback_eq, he0]
  · rw [interruptCallback_eq, he0]
  · intro h b
    rw [ht, List.drop_left]
    simp
  · intro h k
    rw [ht, List.drop_left]
    simp

/-- C11 on the bus where every transfer fails. -/
theorem interruptCallback_fatal_witness :
    (deadDevice.interruptCallback 7 (World.start ())).1 = .exited ∧
    (deadDevice.interruptCallback 7 (World.start ())).2.1 = deadDevice ∧
    (deadDevice.interruptCallback 7 (World.start ())).2.2.trace =
      [] ++ [Event.busRead 0x38 0, Event.fatal "pca9554: can't read input register"] ∧
    (∀ h b, Event.topHandler h b ∉
      (deadDevice.interruptCallback 7 (World.start ())).2.2.trace.drop 0) ∧
    (∀ h k, Event.pinHandler h k ∉
      (deadDevice.interruptCallback 7 (World.start ())).2.2.trace.drop 0) :=
  interruptCallback_fatal deadDevice (World.start ()) 7 "i2c: no acknowledge" rfl

/-- Removing a key that is not in the map leaves the map as it was. -/
theorem erase_absent {l : AList (fun _ : PinValue => Nat)} {k : PinValue} (h : k ∉ l) :
    l.erase k = l := by
  apply AList.ext
  simp only [AList.erase]
  exact List.kerase_of_not_mem_keys h

/-- C12: `StopWatching` returns no error, touches nothing outside the device
and replaces the registration map by the map without `p`.  When `p` is not
registered the map, and so the device, is exactly as it was; in every case the
map afterwards has no entry for `p` and gives every other key the handler it had
before. -/
theorem unregister_frame (d : PCA9554 β) (w : World β) (p : digitalPin) :
    (p.StopWatching d w).1 = none ∧ (p.StopWatching d w).2.2 = w ∧
    (p.StopWatching d w).2.1 = { d with listener := d.listener.unregisterInterrupt (.own p) } ∧
    (PinValue.own p ∉ d.listener.interruptablePins →
      d.listener.unregisterInterrupt (.own p) = d.listener ∧ (p.StopWatching d w).2.1 = d) ∧
    (d.listener.unregisterInterrupt (.own p)).interruptablePins.lookup (.own p) = none ∧
    (∀ k, k ≠ PinValue.own p →
      (d.listener.unregisterInterrupt (.own p)).interruptablePins.lookup k =
        d.listener.interruptablePins.lookup k) := by
  refine ⟨rfl, rfl, rfl, ?_, ?_, ?_⟩
  · intro h
    have e : d.listener.unregisterInterrupt (.own p) = d.listener := by
      unfold interruptListener.unregisterInterrupt
      rw [erase_absent h]
    refine ⟨e, ?_⟩
    unfold digitalPin.StopWatching
    rw [e]
  · exact AList.lookup_erase _ _
  · intro k hk
    exact AList.lookup_erase_ne hk

/-- C12 on the map with pins 1 and 2 registered: removing the unregistered pin 3
changes nothing; removing pin 1 keeps pin 2 with its handler 12. -/
theorem unregister_frame_witness :
    (PinValue.own samplePin ∉ watchingDevice.listener.interruptablePins ∧
      (samplePin.StopWatching watchingDevice inputWorld).1 = none ∧
      (samplePin.StopWatching watchingDevice inputWorld).2.1 = watchingDevice) ∧
    ((watchingDevice.listener.unregisterInterrupt (.own samplePin1)).interruptablePins.lookup
        (.own samplePin1) = none ∧
      (watchingDevice.listener.unregisterInterrupt (.own samplePin1)).interruptablePins.lookup
        (.own samplePin2) = some 12) :=
  have habs : PinValue.own samplePin ∉ watchingDevice.listener.interruptablePins := by
    intro h
    rcases mem_sampleListener h with h | h <;> cases h
  ⟨⟨habs, rfl, ((unregister_frame watchingDevice inputWorld samplePin).2.2.2.1 habs).2⟩,
    (unregister_frame watchingDevice inputWorld samplePin1).2.2.2.2.1,
    ((unregister_frame watchingDevice inputWorld samplePin1).2.2.2.2.2 (.own samplePin2)
      (by decide)).trans rfl⟩

/-- The register operations do not look at the interrupt pin. -/
theorem registers_ignore_interruptPin (d : PCA9554 β) (x : Option HostPin) (w : World β) (b : Nat) :
    ({ d with interruptPin := x }.WriteConfiguration b w =
      ((d.WriteConfiguration b w).1, { (d.WriteConfiguration b w).2.1 with interruptPin := x },
        (d.WriteConfiguration b w).2.2)) ∧
    ({ d with interruptPin := x }.WritePolarityInversionReg b w =
      ((d.WritePolarityInversionReg b w).1,
        { (d.WritePolarityInversionReg b w).2.1 with interruptPin := x },
        (d.WritePolarityInversionReg b w).2.2)) ∧
    ({ d with interruptPin := x }.WriteOutputReg b w =
      ((d.WriteOutputReg b w).1, { (d.WriteOutputReg b w).2.1 with interruptPin := x },
        (d.WriteOutputReg b w).2.2)) ∧
    ({ d with interruptPin := x }.ReadConfiguration w =
      ((d.ReadConfiguration w).1, { (d.ReadConfiguration w).2.1 with interruptPin := x },
        (d.ReadConfiguration w).2.2)) ∧
    ({ d with interruptPin := x }.ReadPolarityInversionReg w =
      ((d.ReadPolarityInversionReg w).1,
        { (d.ReadPolarityInversionReg w).2.1 with interruptPin := x },
        (d.ReadPolarityInversionReg w).2.2)) ∧
    ({ d with interruptPin := x }.ReadInputReg w =
      ((d.ReadInputReg w).1, { (d.ReadInputReg w).2.1 with interruptPin := x },
        (d.ReadInputReg w).2.2)) ∧
    ({ d with interruptPin := x }.ReadOutputReg w =
      ((d.ReadOutputReg w).1, { (d.ReadOutputReg w).2.1 with interruptPin := x },
        (d.ReadOutputReg w).2.2)) := by
  simp only [WriteConfiguration_eq, WritePolarityInversionReg_eq, WriteOutputReg_eq,
    ReadConfiguration_eq, ReadPolarityInversionReg_eq, ReadInputReg_eq, ReadOutputReg_eq]
  refine ⟨?_, ?_, ?_, ?_, ?_, ?_, ?_⟩
  · cases (d.Bus.WriteByteToReg w.bus d.Addr ConfigurationRegister b).1 <;> rfl
  · cases (d.Bus.WriteByteToReg w.bus d.Addr PolarityInvRegister b).1 <;> rfl
  · cases (d.Bus.WriteByteToReg w.bus d.Addr OutputPortRegister b).1 <;> rfl
  · cases (d.Bus.ReadByteFromReg w.bus d.Addr ConfigurationRegister).1 <;> rfl
  · cases (d.Bus.ReadByteFromReg w.bus d.Addr PolarityInvRegister).1 <;> rfl
  · cases (d.Bus.ReadByteFromReg w.bus d.Addr InputPortRegister).1 <;> rfl
  · cases (d.Bus.ReadByteFromReg w.bus d.Addr OutputPortRegister).1 <;> rfl

/-- C13: on a device with a bound interrupt pin whose `Close` succeeds,
`PCA9554.Close` calls `Close` on that pin, returns no error and clears
`interruptPin`, every other field (the four cached registers, the address, the
registrations) staying as it was; a following `SetInteruptPin` with a pin that
accepts `SetDirection` and `Watch` is then accepted and binds it, and each of
the seven register operations gives the result it gives on the device before
`Close`, up to the cleared `interruptPin`.  On a device with no interrupt pin
`Close` returns no error and changes nothing. -/
theorem Close_releases (d : PCA9554 β) (w : World β) :
    (∀ ip, d.interruptPin = some ip → ip.closeErr = none →
      d.Close w = (none, { d with interruptPin := none },
        { w with trace := w.trace ++ [Event.hostClose ip] }) ∧
      (∀ (pin2 : HostPin) (handler2 : Nat) (w2 : World β),
        pin2.setDirectionErr = none → pin2.watchErr = none →
        (d.Close w).2.1.SetInteruptPin pin2 handler2 w2 =
          (none, { d with interruptPin := some pin2 },
            { w2 with trace := w2.trace ++ [Event.hostSetDirection pin2 In] ++
                [Event.hostWatch pin2 EdgeFalling handler2] })) ∧
      (∀ (w2 : World β) (b : Nat),
        (d.Close w).2.1.WriteConfiguration b w2 =
          ((d.WriteConfiguration b w2).1,
            { (d.WriteConfiguration b w2).2.1 with interruptPin := none },
            (d.WriteConfiguration b w2).2.2) ∧
        (d.Close w).2.1.WritePolarityInversionReg b w2 =
          ((d.WritePolarityInversionReg b w2).1,
            { (d.WritePolarityInversionReg b w2).2.1 with interruptPin := none },
            (d.WritePolarityInversionReg b w2).2.2) ∧
        (d.Close w).2.1.WriteOutputReg b w2 =
          ((d.WriteOutputReg b w2).1,
            { (d.WriteOutputReg b w2).2.1 with interruptPin := none },
            (d.WriteOutputReg b w2).2.2) ∧
        (d.Close w).2.1.ReadConfiguration w2 =
          ((d.ReadConfiguration w2).1,
            { (d.ReadConfiguration w2).2.1 with interruptPin := none },
            (d.ReadConfiguration w2).2.2) ∧
        (d.Close w).2.1.ReadPolarityInversionReg w2 =
          ((d.ReadPolarityInversionReg w2).1,
            { (d.ReadPolarityInversionReg w2).2.1 with interruptPin := none },
            (d.ReadPolarityInversionReg w2).2.2) ∧
        (d.Close w).2.1.ReadInputReg w2 =
          ((d.ReadInputReg w2).1, { (d.ReadInputReg w2).2.1 with interruptPin := none },
            (d.ReadInputReg w2).2.2) ∧
        (d.Close w).2.1.ReadOutputReg w2 =
          ((d.ReadOutputReg w2).1, { (d.ReadOutputReg w2).2.1 with interruptPin := none },
            (d.ReadOutputReg w2).2.2))) ∧
    (d.interruptPin = none → d.Close w = (none, d, w)) := by
  refine ⟨?_, ?_⟩
  · intro ip hip hclose
    have hc : d.Close w = (none, { d with interruptPin := none },
        { w with trace := w.trace ++ [Event.hostClose ip] }) := by
      unfold PCA9554.Close
      rw [hip]
      simp only [HostPin.Close, hclose]
    rw [hc]
    refine ⟨rfl, ?_, ?_⟩
    · intro pin2 handler2 w2 h1 h2
      simp only [PCA9554.SetInteruptPin, HostPin.SetDirection, HostPin.Watch, h1, h2]
    · intro w2 b
      exact registers_ignore_interruptPin d none w2 b
  · intro h
    unfold PCA9554.Close
    rw [h]

/-- C13 on a device with host line 17 bound: `Close` unbinds it, binding line 27
afterwards succeeds while it is refused before; without a bound pin `Close`
changes nothing. -/
theorem Close_releases_witness :
    boundDevice.interruptPin = some irqPin ∧ irqPin.closeErr = none ∧
    boundDevice.Close inputWorld =
      (none, { boundDevice with interruptPin := none },
        { inputWorld with trace := inputWorld.trace ++ [Event.hostClose irqPin] }) ∧
    ((boundDevice.Close inputWorld).2.1.SetInteruptPin irqPin2 2 inputWorld).1 = none ∧
    ((boundDevice.Close inputWorld).2.1.SetInteruptPin irqPin2 2 inputWorld).2.1.interruptPin =
      some irqPin2 ∧
    (boundDevice.SetInteruptPin irqPin2 2 inputWorld).1 =
      some "pca9554: interrupt pin has already been set to 17" ∧
    watchingDevice.Close inputWorld = (none, watchingDevice, inputWorld) :=
  ⟨rfl, rfl, ((Close_releases boundDevice inputWorld).1 irqPin rfl rfl).1,
    congrArg (fun r => r.1)
      (((Close_releases boundDevice inputWorld).1 irqPin rfl rfl).2.1 irqPin2 2 inputWorld rfl rfl),
    congrArg (fun r => r.2.1.interruptPin)
      (((Close_releases boundDevice inputWorld).1 irqPin rfl rfl).2.1 irqPin2 2 inputWorld rfl rfl),
    rfl, (Close_releases watchingDevice inputWorld).2 rfl⟩

/-- What `Watch` does, by the answer of the bus. -/
theorem Watch_eq (p : digitalPin) (edge : String) (handler : Nat) (d : PCA9554 β) (w : World β) :
    p.Watch edge handler d w =
      ((d.Bus.WriteByteToReg w.bus d.Addr ConfigurationRegister
          (d.configurationReg &&& p.mask ||| (if In = In then p.pin else 0))).1,
        (match (d.Bus.WriteByteToReg w.bus d.Addr ConfigurationRegister
            (d.configurationReg &&& p.mask ||| (if In = In then p.pin else 0))).1 with
          | some _ => d
          | none =>
            { d with
              configurationReg := d.configurationReg &&& p.mask ||| (if In = In then p.pin else 0)
              listener := d.listener.registerInterrupt (.own p) handler }),
        { w with
          bus := (d.Bus.WriteByteToReg w.bus d.Addr ConfigurationRegister
            (d.configurationReg &&& p.mask ||| (if In = In then p.pin else 0))).2,
          trace := w.trace ++ [Event.busWrite d.Addr ConfigurationRegister
            (d.configurationReg &&& p.mask ||| (if In = In then p.pin else 0))] }) := by
  unfold digitalPin.Watch digitalPin.SetDirection
  rw [WriteConfiguration_eq]
  cases h : (d.Bus.WriteByteToReg w.bus d.Addr ConfigurationRegister
    (d.configurationReg &&& p.mask ||| (if In = In then p.pin else 0))).1 <;> rfl

/-- C14: for every pin `p` with index `i = p.n`, edge and handler, `Watch` makes
exactly one bus call, the write to the configuration register (index 3) of a
byte `b` with bit `i` set and the other bits as in the cached configuration
register; if that write succeeds `Watch` returns no error, the configuration
cache is `b` and `(p, handler)` is registered; if it fails with `e`, `Watch`
returns `e` and the device, so the registration map, is unchanged.  The result
is the same for every value of the edge argument. -/
theorem Watch_input_then_register (d : PCA9554 β) (w : World β) (p : digitalPin)
    (hp : p.Issued) (edge : String) (handler : Nat) :
    ∃ b : Nat,
      b.testBit p.n = true ∧
      (∀ j, j < 8 → j ≠ p.n → b.testBit j = d.configurationReg.testBit j) ∧
      (p.Watch edge handler d w).2.2.trace = w.trace ++ [Event.busWrite d.Addr 3 b] ∧
      ((d.Bus.WriteByteToReg w.bus d.Addr 3 b).1 = none →
        (p.Watch edge handler d w).1 = none ∧
        (p.Watch edge handler d w).2.1 =
          { d with configurationReg := b
                   listener := d.listener.registerInterrupt (.own p) handler }) ∧
      (∀ e, (d.Bus.WriteByteToReg w.bus d.Addr 3 b).1 = some e →
        (p.Watch edge handler d w).1 = some e ∧ (p.Watch edge handler d w).2.1 = d) ∧
      (∀ edge2, p.Watch edge2 handler d w = p.Watch edge handler d w) := by
  obtain ⟨hn, hpin, hmask⟩ := Issued_shape hp
  obtain ⟨hb, hj⟩ := SetDirection_byte_bits hn In d.configurationReg
  refine ⟨d.configurationReg &&& (255 - 2 ^ p.n) ||| (if In = In then 2 ^ p.n else 0),
    hb.trans (decide_eq_true rfl), hj, ?_, ?_, ?_, ?_⟩
  · rw [Watch_eq, hpin, hmask]
    rfl
  · intro hok
    have hok0 : (d.Bus.WriteByteToReg w.bus d.Addr ConfigurationRegister
        (d.configurationReg &&& (255 - 2 ^ p.n) ||| (if In = In then 2 ^ p.n else 0))).1 = none :=
      hok
    rw [Watch_eq, hpin, hmask, hok0]
    exact ⟨rfl, rfl⟩
  · intro e he
    have he0 : (d.Bus.WriteByteToReg w.bus d.Addr ConfigurationRegister
        (d.configurationReg &&& (255 - 2 ^ p.n) ||| (if In = In then 2 ^ p.n else 0))).1 = some e :=
      he
    rw [Watch_eq, hpin, hmask, he0]
    exact ⟨rfl, rfl⟩
  · intro edge2
    rw [Watch_eq, Watch_eq]

/-- C14 for the pin of index 2 on the echoing bus with cached configuration
0x5A, and on the bus where every transfer fails. -/
theorem Watch_input_then_register_witness :
    samplePin2.Issued ∧
    ((samplePin2.Watch EdgeNone 12 sampleDevice sampleWorld).1 = none ∧
      (samplePin2.Watch EdgeNone 12 sampleDevice sampleWorld).2.1.configurationReg = 0x5E ∧
      (samplePin2.Watch EdgeNone 12 sampleDevice sampleWorld).2.1.listener.interruptablePins.lookup
        (.own samplePin2) = some 12) ∧
    ((samplePin2.Watch EdgeNone 12 deadDevice (World.start ())).1 = some "i2c: no acknowledge" ∧
      (samplePin2.Watch EdgeNone 12 deadDevice (World.start ())).2.1 = deadDevice) ∧
    (∃ b : Nat,
      b.testBit 2 = true ∧
      (∀ j, j < 8 → j ≠ 2 → b.testBit j = Nat.testBit 0x5A j) ∧
      (samplePin2.Watch EdgeNone 12 sampleDevice sampleWorld).2.2.trace =
        [] ++ [Event.busWrite 0x38 3 b] ∧
      ((echoBus.WriteByteToReg sampleWorld.bus 0x38 3 b).1 = none →
        (samplePin2.Watch EdgeNone 12 sampleDevice sampleWorld).1 = none ∧
        (samplePin2.Watch EdgeNone 12 sampleDevice sampleWorld).2.1 =
          { sampleDevice with
            configurationReg := b
            listener := sampleDevice.listener.registerInterrupt (.own samplePin2) 12 }) ∧
      (∀ e, (echoBus.WriteByteToReg sampleWorld.bus 0x38 3 b).1 = some e →
        (samplePin2.Watch EdgeNone 12 sampleDevice sampleWorld).1 = some e ∧
        (samplePin2.Watch EdgeNone 12 sampleDevice sampleWorld).2.1 = sampleDevice) ∧
      (∀ edge2, samplePin2.Watch edge2 12 sampleDevice sampleWorld =
        samplePin2.Watch EdgeNone 12 sampleDevice sampleWorld)) :=
  ⟨samplePin2_issued, ⟨rfl, rfl, rfl⟩, ⟨rfl, rfl⟩,
    Watch_input_then_register sampleDevice sampleWorld samplePin2 samplePin2_issued EdgeNone 12⟩

/-- C15, amended: in the byte that `SetDirection` hands to `WriteConfiguration`
bit `i` is 0 for `embd.Out` and 1 for `embd.In`, for every pin `p` with index
`i = p.n`: `SetDirection(Out)` is `WriteConfiguration(b)` for a byte `b` with bit
`i` cleared, `SetDirection(In)` for a byte with bit `i` set. -/
theorem SetDirection_polarity (d : PCA9554 β) (w : World β) (p : digitalPin) (hp : p.Issued) :
    (∃ b : Nat, b.testBit p.n = false ∧
      p.SetDirection Out d w = d.WriteConfiguration b w ∧
      (p.SetDirection Out d w).2.2.trace = w.trace ++ [Event.busWrite d.Addr 3 b]) ∧
    (∃ b : Nat, b.testBit p.n = true ∧
      p.SetDirection In d w = d.WriteConfiguration b w ∧
      (p.SetDirection In d w).2.2.trace = w.trace ++ [Event.busWrite d.Addr 3 b]) := by
  obtain ⟨hn, hpin, hmask⟩ := Issued_shape hp
  refine ⟨⟨_, ?_, rfl, ?_⟩, ⟨_, ?_, rfl, ?_⟩⟩
  · rw [hpin, hmask]
    simpa [In, Out] using (SetDirection_byte_bits hn Out d.configurationReg).1
  · simp only [digitalPin.SetDirection, WriteConfiguration_eq]
    rfl
  · rw [hpin, hmask]
    exact (SetDirection_byte_bits hn In d.configurationReg).1.trans (decide_eq_true rfl)
  · simp only [digitalPin.SetDirection, WriteConfiguration_eq]
    rfl

/-- C15, amended, for the pin of index 3 on the echoing bus. -/
theorem SetDirection_polarity_witness :
    samplePin.Issued ∧
    ((∃ b : Nat, b.testBit 3 = false ∧
      samplePin.SetDirection Out sampleDevice sampleWorld =
        sampleDevice.WriteConfiguration b sampleWorld ∧
      (samplePin.SetDirection Out sampleDevice sampleWorld).2.2.trace =
        [] ++ [Event.busWrite 0x38 3 b]) ∧
    (∃ b : Nat, b.testBit 3 = true ∧
      samplePin.SetDirection In sampleDevice sampleWorld =
        sampleDevice.WriteConfiguration b sampleWorld ∧
      (samplePin.SetDirection In sampleDevice sampleWorld).2.2.trace =
        [] ++ [Event.busWrite 0x38 3 b])) :=
  ⟨samplePin_issued, SetDirection_polarity sampleDevice sampleWorld samplePin samplePin_issued⟩

/-- C15 as stated fails: with cached configuration 0x5A and the pin of index 3,
a successful `SetDirection(Out)` calls `WriteConfiguration(0x52)`, bit 3
cleared, and a successful `SetDirection(In)` calls `WriteConfiguration(0x5A)`,
bit 3 set. -/
theorem SetDirection_doc_polarity_counterexample :
    ((samplePin.SetDirection Out sampleDevice sampleWorld).1 = none ∧
      (samplePin.SetDirection Out sampleDevice sampleWorld).2.2.trace =
        [Event.busWrite 0x38 3 0x52] ∧
      Nat.testBit 0x52 3 = false) ∧
    ((samplePin.SetDirection In sampleDevice sampleWorld).1 = none ∧
      (samplePin.SetDirection In sampleDevice sampleWorld).2.2.trace =
        [Event.busWrite 0x38 3 0x5A] ∧
      Nat.testBit 0x5A 3 = true) :=
  ⟨⟨rfl, rfl, rfl⟩, ⟨rfl, rfl, rfl⟩⟩

/-- C16 as stated fails: from `New(bus, 0x38)` on the echoing bus, nine times
`DigitalPin("0")` followed by `Watch` on the pin returned leaves nine entries in
the registration map, each call of `DigitalPin` returning a new pin object. -/
theorem watchers_bound_counterexample :
    ((Session.start echoBus 0x38 sampleWorld).run nineWatches).watchers = 9 ∧
    ¬ ((Session.start echoBus 0x38 sampleWorld).run nineWatches).watchers ≤ 8 := by
  decide

theorem Session.sound_start (bus : I2CBus β) (addr : Nat) (w : World β) :
    (Session.start bus addr w).Sound := by
  constructor
  · intro k hk
    simp [Session.start, New, defaultInterruptListener] at hk
  · intro p hp
    simp [Session.start] at hp

theorem Session.sound_step (s : Session β) (hs : s.Sound) (c : Call) : (s.step c).Sound := by
  obtain ⟨hkeys, hheld⟩ := hs
  cases c with
  | digitalPin key =>
    simp only [Session.step]
    split
    · next p w1 heq =>
      refine ⟨?_, ?_⟩
      · intro k hk
        obtain ⟨q, hq, rfl⟩ := hkeys k hk
        exact ⟨q, List.mem_append_left _ hq, rfl⟩
      · intro q hq
        rcases List.mem_append.1 hq with h | h
        · exact hheld q h
        · rw [List.mem_singleton] at h
          subst h
          exact DigitalPin_issued heq
    · exact ⟨hkeys, hheld⟩
  | watch i edge handler =>
    simp only [Session.step]
    split
    · exact ⟨hkeys, hheld⟩
    · next p hget =>
      have hp : p ∈ s.held := List.get?_mem hget
      refine ⟨?_, hheld⟩
      intro k hk
      rw [Watch_eq] at hk
      simp only at hk
      split at hk
      · exact hkeys k hk
      · simp only [interruptListener.registerInterrupt, AList.keys_insert, List.mem_cons] at hk
        rcases hk with h | h
        · exact ⟨p, hp, h⟩
        · exact hkeys k (List.mem_of_mem_erase h)
  | stopWatching i =>
    simp only [Session.step]
    split
    · exact ⟨hkeys, hheld⟩
    · next p hget =>
      refine ⟨?_, hheld⟩
      intro k hk
      simp only [digitalPin.StopWatching, interruptListener.unregisterInterrupt,
        AList.keys_erase] at hk
      exact hkeys k (List.mem_of_mem_erase hk)

theorem Session.sound_run (calls : List Call) :
    ∀ s : Session β, s.Sound → (s.run calls).Sound := by
  induction calls with
  | nil => intro s hs; exact hs
  | cons c cs ih =>
    intro s hs
    exact ih (s.step c) (Session.sound_step s hs c)

/-- C16, amended: in every state reachable from `New` by any sequence of
`DigitalPin`, `Watch` and `StopWatching` calls, the number of entries of the
registration map is at most the number of pins `DigitalPin` has returned so
far; it is at most 8 when no two of the returned pins have the same index. -/
theorem watchers_bound (bus : I2CBus β) (addr : Nat) (w : World β) (calls : List Call) :
    ((Session.start bus addr w).run calls).watchers ≤
      ((Session.start bus addr w).run calls).held.length ∧
    ((((Session.start bus addr w).run calls).held.map digitalPin.n).Nodup →
      ((Session.start bus addr w).run calls).watchers ≤ 8) := by
  obtain ⟨hkeys, hheld⟩ := Session.sound_run calls _ (Session.sound_start bus addr w)
  generalize (Session.start bus addr w).run calls = s at hkeys hheld
  have hlen : s.watchers = s.dev.listener.interruptablePins.keys.length := by
    simp [Session.watchers, AList.keys, List.keys]
  have hnd : s.dev.listener.interruptablePins.keys.Nodup := AList.keys_nodup _
  refine ⟨?_, ?_⟩
  · rw [hlen, ← List.length_map s.held PinValue.own]
    apply List.Subperm.length_le
    apply List.subperm_of_subset hnd
    intro k hk
    obtain ⟨p, hp, rfl⟩ := hkeys k hk
    exact List.mem_map_of_mem _ hp
  · intro hidx
    have hinj : ∀ a ∈ s.dev.listener.interruptablePins.keys,
        ∀ b ∈ s.dev.listener.interruptablePins.keys, a.index = b.index → a = b := by
      intro a ha b hb hab
      obtain ⟨p, hp, rfl⟩ := hkeys a ha
      obtain ⟨q, hq, rfl⟩ := hkeys b hb
      rw [List.inj_on_of_nodup_map hidx hp hq hab]
    have hnd2 : (s.dev.listener.interruptablePins.keys.map PinValue.index).Nodup :=
      List.Nodup.map_on hinj hnd
    have hsub : s.dev.listener.interruptablePins.keys.map PinValue.index ⊆ List.range 8 := by
      intro n hn
      obtain ⟨k, hk, rfl⟩ := List.mem_map.1 hn
      obtain ⟨p, hp, rfl⟩ := hkeys k hk
      exact List.mem_range.2 (Issued_shape (hheld p hp)).1
    have := List.Subperm.length_le (List.subperm_of_subset hnd2 hsub)
    rw [List.length_map, List.length_range] at this
    rw [hlen]
    exact this

/-- C16, amended: eight pins of distinct indices, all watched, give 8 entries;
after the nine calls for pin "0" the entries do not exceed the nine pins
returned. -/
theorem watchers_bound_witness :
    (((Session.start echoBus 0x38 sampleWorld).run eightWatches).held.map digitalPin.n).Nodup ∧
    ((Session.start echoBus 0x38 sampleWorld).run eightWatches).watchers = 8 ∧
    ((Session.start echoBus 0x38 sampleWorld).run eightWatches).watchers ≤ 8 ∧
    ((Session.start echoBus 0x38 sampleWorld).run nineWatches).watchers ≤
      ((Session.start echoBus 0x38 sampleWorld).run nineWatches).held.length :=
  ⟨by decide, by decide,
    (watchers_bound echoBus 0x38 sampleWorld eightWatches).2 (by decide),
    (watchers_bound echoBus 0x38 sampleWorld nineWatches).1⟩

/-- What `ActiveLow` does, by the answer of the bus. -/
theorem ActiveLow_eq (p : digitalPin) (b : Bool) (d : PCA9554 β) (w : World β) :
    p.ActiveLow b d w =
      d.WritePolarityInversionReg (d.polarityInvReg &&& p.mask ||| (if b then p.pin else 0)) w :=
  rfl

theorem SetDirection_eq (p : digitalPin) (dir : Int) (d : PCA9554 β) (w : World β) :
    p.SetDirection dir d w =
      d.WriteConfiguration (d.configurationReg &&& p.mask ||| (if In = dir then p.pin else 0)) w :=
  rfl

theorem Write_eq (p : digitalPin) (val : Int) (d : PCA9554 β) (w : World β) :
    p.Write val d w =
      d.WriteOutputReg (d.outputPortReg &&& p.mask ||| (if val ≠ Low then p.pin else 0)) w :=
  rfl

/-- C19: on a bus that echoes writes in front of a chip nobody else modifies
(`Faithful`: a successful read returns the register, a successful write sets
it, a failed transfer changes nothing), for every driver operation (the four
reads, the three writes, `SetDirection`, `ActiveLow`, `Write`, `Read`, `Watch`)
and each of the output (1), polarity-inversion (2) and configuration (3)
registers: if the cached value equals the register before the operation, it
equals the register after it, whether the operation succeeded or failed; and
after a successful explicit read or write of a register, its cached value
equals the register whatever the state before. -/
theorem cache_consistency (d : PCA9554 β) (w : World β) (hw : β → Nat → Nat → Nat)
    (hf : d.Bus.Faithful hw) (op : Op) :
    (∀ reg, reg = 1 ∨ reg = 2 ∨ reg = 3 → d.cached reg = hw w.bus d.Addr reg →
      (op.run d w).2.1.cached reg = hw (op.run d w).2.2.bus (op.run d w).2.1.Addr reg) ∧
    (∀ reg, op.register = some reg → (op.run d w).1 = true →
      (op.run d w).2.1.cached reg = hw (op.run d w).2.2.bus (op.run d w).2.1.Addr reg) := by
  cases op with
  | ReadInputReg =>
    simp only [Op.run, Op.register, ReadInputReg_eq, Option.some.injEq]
    cases h : (d.Bus.ReadByteFromReg w.bus d.Addr InputPortRegister).1 with
    | error e =>
      simp only [hf.read_frame, succeeded]
      exact ⟨fun reg _ hc => hc, fun reg _ hs => by cases hs⟩
    | ok v =>
      simp only [hf.read_frame, succeeded]
      refine ⟨?_, ?_⟩
      · rintro reg (rfl | rfl | rfl) hc <;> exact hc
      · rintro reg rfl -
        exact hf.read_value _ _ _ _ h
  | ReadOutputReg =>
    simp only [Op.run, Op.register, ReadOutputReg_eq, Option.some.injEq]
    cases h : (d.Bus.ReadByteFromReg w.bus d.Addr OutputPortRegister).1 with
    | error e =>
      simp only [hf.read_frame, succeeded]
      exact ⟨fun reg _ hc => hc, fun reg _ hs => by cases hs⟩
    | ok v =>
      simp only [hf.read_frame, succeeded]
      refine ⟨?_, ?_⟩
      · rintro reg (rfl | rfl | rfl) hc <;>
          first
            | exact hc
            | exact hf.read_value _ _ _ _ h
      · rintro reg rfl -
        exact hf.read_value _ _ _ _ h
  | ReadConfiguration =>
    simp only [Op.run, Op.register, ReadConfiguration_eq, Option.some.injEq]
    cases h : (d.Bus.ReadByteFromReg w.bus d.Addr ConfigurationRegister).1 with
    | error e =>
      simp only [hf.read_frame, succeeded]
      exact ⟨fun reg _ hc => hc, fun reg _ hs => by cases hs⟩
    | ok v =>
      simp only [hf.read_frame, succeeded]
      refine ⟨?_, ?_⟩
      · rintro reg (rfl | rfl | rfl) hc <;>
          first
            | exact hc
            | exact hf.read_value _ _ _ _ h
      · rintro reg rfl -
        exact hf.read_value _ _ _ _ h
  | ReadPolarityInversionReg =>
    simp only [Op.run, Op.register, ReadPolarityInversionReg_eq, Option.some.injEq]
    cases h : (d.Bus.ReadByteFromReg w.bus d.Addr PolarityInvRegister).1 with
    | error e =>
      simp only [hf.read_frame, succeeded]
      exact ⟨fun reg _ hc => hc, fun reg _ hs => by cases hs⟩
    | ok v =>
      simp only [hf.read_frame, succeeded]
      refine ⟨?_, ?_⟩
      · rintro reg (rfl | rfl | rfl) hc <;>
          first
            | exact hc
            | exact hf.read_value _ _ _ _ h
      · rintro reg rfl -
        exact hf.read_value _ _ _ _ h
  | WriteConfiguration b =>
    simp only [Op.run, Op.register, WriteConfiguration_eq, Option.some.injEq]
    cases h : (d.Bus.WriteByteToReg w.bus d.Addr ConfigurationRegister b).1 with
    | some e =>
      simp only [hf.write_failed _ _ _ _ e h, Option.isNone]
      exact ⟨fun reg _ hc => hc, fun reg _ hs => by cases hs⟩
    | none =>
      simp only [hf.write_value _ _ _ _ h, Option.isNone]
      refine ⟨?_, ?_⟩
      · rintro reg (rfl | rfl | rfl) hc <;>
          first
            | exact hc
            | simp [PCA9554.cached, ConfigurationRegister, InputPortRegister, OutputPortRegister,
                PolarityInvRegister]
      · rintro reg rfl -
        simp [PCA9554.cached, ConfigurationRegister, InputPortRegister, OutputPortRegister,
            PolarityInvRegister]
  | WritePolarityInversionReg b =>
    simp only [Op.run, Op.register, WritePolarityInversionReg_eq, Option.some.injEq]
    cases h : (d.Bus.WriteByteToReg w.bus d.Addr PolarityInvRegister b).1 with
    | some e =>
      simp only [hf.write_failed _ _ _ _ e h, Option.isNone]
      exact ⟨fun reg _ hc => hc, fun reg _ hs => by cases hs⟩
    | none =>
      simp only [hf.write_value _ _ _ _ h, Option.isNone]
      refine ⟨?_, ?_⟩
      · rintro reg (rfl | rfl | rfl) hc <;>
          first
            | exact hc
            | simp [PCA9554.cached, ConfigurationRegister, InputPortRegister, OutputPortRegister,
                PolarityInvRegister]
      · rintro reg rfl -
        simp [PCA9554.cached, ConfigurationRegister, InputPortRegister, OutputPortRegister,
            PolarityInvRegister]
  | WriteOutputReg b =>
    simp only [Op.run, Op.register, WriteOutputReg_eq, Option.some.injEq]
    cases h : (d.Bus.WriteByteToReg w.bus d.Addr OutputPortRegister b).1 with
    | some e =>
      simp only [hf.write_failed _ _ _ _ e h, Option.isNone]
      exact ⟨fun reg _ hc => hc, fun reg _ hs => by cases hs⟩
    | none =>
      simp only [hf.write_value _ _ _ _ h, Option.isNone]
      refine ⟨?_, ?_⟩
      · rintro reg (rfl | rfl | rfl) hc <;>
          first
            | exact hc
            | simp [PCA9554.cached, ConfigurationRegister, InputPortRegister, OutputPortRegister,
                PolarityInvRegister]
      · rintro reg rfl -
        simp [PCA9554.cached, ConfigurationRegister, InputPortRegister, OutputPortRegister,
            PolarityInvRegister]
  | SetDirection p dir =>
    simp only [Op.run, Op.register, SetDirection_eq, WriteConfiguration_eq, Option.some.injEq]
    cases h : (d.Bus.WriteByteToReg w.bus d.Addr ConfigurationRegister
        (d.configurationReg &&& p.mask ||| (if In = dir then p.pin else 0))).1 with
    | some e =>
      simp only [hf.write_failed _ _ _ _ e h, Option.isNone]
      exact ⟨fun reg _ hc => hc, fun reg hr => by cases hr⟩
    | none =>
      simp only [hf.write_value _ _ _ _ h, Option.isNone]
      refine ⟨?_, ?_⟩
      · rintro reg (rfl | rfl | rfl) hc <;>
          first
            | exact hc
            | simp [PCA9554.cached, ConfigurationRegister, InputPortRegister, OutputPortRegister,
                PolarityInvRegister]
      · intro reg hr
        cases hr
  | ActiveLow p b =>
    simp only [Op.run, Op.register, ActiveLow_eq, WritePolarityInversionReg_eq, Option.some.injEq]
    cases h : (d.Bus.WriteByteToReg w.bus d.Addr PolarityInvRegister
        (d.polarityInvReg &&& p.mask ||| (if b then p.pin else 0))).1 with
    | some e =>
      simp only [hf.write_failed _ _ _ _ e h, Option.isNone]
      exact ⟨fun reg _ hc => hc, fun reg hr => by cases hr⟩
    | none =>
      simp only [hf.write_value _ _ _ _ h, Option.isNone]
      refine ⟨?_, ?_⟩
      · rintro reg (rfl | rfl | rfl) hc <;>
          first
            | exact hc
            | simp [PCA9554.cached, ConfigurationRegister, InputPortRegister, OutputPortRegister,
                PolarityInvRegister]
      · intro reg hr
        cases hr
  | Write p val =>
    simp only [Op.run, Op.register, Write_eq, WriteOutputReg_eq, Option.some.injEq]
    cases h : (d.Bus.WriteByteToReg w.bus d.Addr OutputPortRegister
        (d.outputPortReg &&& p.mask ||| (if val ≠ Low then p.pin else 0))).1 with
    | some e =>
      simp only [hf.write_failed _ _ _ _ e h, Option.isNone]
      exact ⟨fun reg _ hc => hc, fun reg hr => by cases hr⟩
    | none =>
      simp only [hf.write_value _ _ _ _ h, Option.isNone]
      refine ⟨?_, ?_⟩
      · rintro reg (rfl | rfl | rfl) hc <;>
          first
            | exact hc
            | simp [PCA9554.cached, ConfigurationRegister, InputPortRegister, OutputPortRegister,
                PolarityInvRegister]
      · intro reg hr
        cases hr
  | Read p =>
    simp only [Op.run, Op.register, Read_eq, Option.some.injEq]
    cases h : (d.Bus.ReadByteFromReg w.bus d.Addr InputPortRegister).1 with
    | error e =>
      simp only [hf.read_frame, succeeded]
      exact ⟨fun reg _ hc => hc, fun reg hr => by cases hr⟩
    | ok v =>
      simp only [hf.read_frame, succeeded]
      refine ⟨?_, ?_⟩
      · rintro reg (rfl | rfl | rfl) hc <;> exact hc
      · intro reg hr
        cases hr
  | Watch p edge handler =>
    simp only [Op.run, Op.register, Watch_eq, if_true, Option.some.injEq]
    cases h : (d.Bus.WriteByteToReg w.bus d.Addr ConfigurationRegister
        (d.configurationReg &&& p.mask ||| p.pin)).1 with
    | some e =>
      simp only [hf.write_failed _ _ _ _ e h, Option.isNone]
      exact ⟨fun reg _ hc => hc, fun reg hr => by cases hr⟩
    | none =>
      simp only [hf.write_value _ _ _ _ h, Option.isNone]
      refine ⟨?_, ?_⟩
      · rintro reg (rfl | rfl | rfl) hc <;>
          first
            | exact hc
            | simp [PCA9554.cached, ConfigurationRegister, InputPortRegister, OutputPortRegister,
                PolarityInvRegister]
      · intro reg hr
        cases hr

theorem echoBus_faithful : echoBus.Faithful (fun s => s) where
  read_value := by
    intro s addr reg v h
    simp only [echoBus, Except.ok.injEq] at h
    exact h.symm
  read_frame := by
    intro s addr reg
    rfl
  write_value := by
    intro s addr reg v _ a r
    rfl
  write_failed := by
    intro s addr reg v e h
    simp [echoBus] at h

theorem flakyBus_faithful (faults : List Nat) : (flakyBus faults).Faithful (fun s => s.1) where
  read_value := by
    intro s addr reg v h
    simp only [flakyBus] at h
    split at h
    · cases h
    · simp only [Except.ok.injEq] at h
      exact h.symm
  read_frame := by
    intro s addr reg
    simp only [flakyBus]
    split <;> rfl
  write_value := by
    intro s addr reg v h a r
    simp only [flakyBus] at h ⊢
    split at h
    · cases h
    · next hn => simp only [if_neg hn]
  write_failed := by
    intro s addr reg v e h
    simp only [flakyBus] at h ⊢
    split at h
    · next hn => simp only [if_pos hn]
    · cases h

/-- C19 on a bus whose second transfer fails: a successful `Watch` and then a
failed `WriteOutputReg` keep the caches equal to the registers; on the echoing
bus a `ReadConfiguration` makes a stale configuration cache equal to the
register. -/
theorem cache_consistency_witness :
    flakyDevice.Bus.Faithful (fun s => s.1) ∧
    (flakyDevice.cached 1 = flakyWorld.bus.1 flakyDevice.Addr 1 ∧
      flakyDevice.cached 2 = flakyWorld.bus.1 flakyDevice.Addr 2 ∧
      flakyDevice.cached 3 = flakyWorld.bus.1 flakyDevice.Addr 3) ∧
    (((Op.Watch samplePin2 EdgeNone 12).run flakyDevice flakyWorld).1 = true ∧
      ((Op.Watch samplePin2 EdgeNone 12).run flakyDevice flakyWorld).2.1.cached 3 = 0xC7 ∧
      ((Op.Watch samplePin2 EdgeNone 12).run flakyDevice flakyWorld).2.1.cached 3 =
        ((Op.Watch samplePin2 EdgeNone 12).run flakyDevice flakyWorld).2.2.bus.1
          ((Op.Watch samplePin2 EdgeNone 12).run flakyDevice flakyWorld).2.1.Addr 3) ∧
    (((Op.WriteOutputReg 0x0F).run
        ((Op.Watch samplePin2 EdgeNone 12).run flakyDevice flakyWorld).2.1
        ((Op.Watch samplePin2 EdgeNone 12).run flakyDevice flakyWorld).2.2).1 = false ∧
      ((Op.WriteOutputReg 0x0F).run
        ((Op.Watch samplePin2 EdgeNone 12).run flakyDevice flakyWorld).2.1
        ((Op.Watch samplePin2 EdgeNone 12).run flakyDevice flakyWorld).2.2).2.1.cached 1 =
        ((Op.WriteOutputReg 0x0F).run
          ((Op.Watch samplePin2 EdgeNone 12).run flakyDevice flakyWorld).2.1
          ((Op.Watch samplePin2 EdgeNone 12).run flakyDevice flakyWorld).2.2).2.2.bus.1
          ((Op.WriteOutputReg 0x0F).run
            ((Op.Watch samplePin2 EdgeNone 12).run flakyDevice flakyWorld).2.1
            ((Op.Watch samplePin2 EdgeNone 12).run flakyDevice flakyWorld).2.2).2.1.Addr 1) ∧
    (sampleDevice.cached 3 ≠ liveWorld.bus sampleDevice.Addr 3 ∧
      (Op.ReadConfiguration.run sampleDevice liveWorld).2.1.cached 3 =
        (Op.ReadConfiguration.run sampleDevice liveWorld).2.2.bus
          (Op.ReadConfiguration.run sampleDevice liveWorld).2.1.Addr 3) :=
  ⟨flakyBus_faithful [1], ⟨rfl, rfl, rfl⟩,
    ⟨rfl, rfl,
      (cache_consistency flakyDevice flakyWorld (fun s => s.1) (flakyBus_faithful [1])
        (Op.Watch samplePin2 EdgeNone 12)).1 3 (Or.inr (Or.inr rfl)) rfl⟩,
    ⟨rfl,
      (cache_consistency ((Op.Watch samplePin2 EdgeNone 12).run flakyDevice flakyWorld).2.1
        ((Op.Watch samplePin2 EdgeNone 12).run flakyDevice flakyWorld).2.2 (fun s => s.1)
        (flakyBus_faithful [1]) (Op.WriteOutputReg 0x0F)).1 1 (Or.inl rfl) rfl⟩,
    ⟨by decide,
      (cache_consistency sampleDevice liveWorld (fun s => s) echoBus_faithful
        Op.ReadConfiguration).2 3 rfl rfl⟩⟩

theorem testBit_clearMask_all {n : Nat} (hn : n < 8) (k : Nat) :
    (255 - 2 ^ n).testBit k = (decide (k < 8) && decide (k ≠ n)) := by
  by_cases hk : k < 8
  · rw [testBit_clearMask hn hk]
    simp [hk]
  · have h256 : 255 - 2 ^ n < 2 ^ k :=
      Nat.lt_of_lt_of_le clearMask_lt
        (by simpa using Nat.pow_le_pow_right (n := 2) (by decide) (Nat.le_of_not_lt hk))
    rw [Nat.testBit_lt_two_pow h256]
    simp [hk]

theorem testBit_level_bit (c : Prop) [Decidable c] (n k : Nat) :
    (if c then 2 ^ n else 0).testBit k = (decide c && decide (k = n)) := by
  by_cases h : c <;> simp [h, testBit_bitMask]

/-- Two merges on different bit positions commute. -/
theorem merge_comm {i j : Nat} (hi : i < 8) (hj : j < 8) (hij : i ≠ j) (c e : Prop)
    [Decidable c] [Decidable e] (x : Nat) :
    (x &&& (255 - 2 ^ i) ||| (if c then 2 ^ i else 0)) &&& (255 - 2 ^ j) |||
        (if e then 2 ^ j else 0) =
      (x &&& (255 - 2 ^ j) ||| (if e then 2 ^ j else 0)) &&& (255 - 2 ^ i) |||
        (if c then 2 ^ i else 0) := by
  apply Nat.eq_of_testBit_eq
  intro k
  simp only [Nat.testBit_or, Nat.testBit_and, testBit_clearMask_all hi, testBit_clearMask_all hj,
    testBit_level_bit]
  by_cases h1 : k = i
  · subst h1
    simp [hij, hi]
  · by_cases h2 : k = j
    · subst h2
      simp [h1, hj]
    · simp [h1, h2]

/-- A merge done twice is a merge done once. -/
theorem merge_idem {i : Nat} (hi : i < 8) (c : Prop) [Decidable c] (x : Nat) :
    (x &&& (255 - 2 ^ i) ||| (if c then 2 ^ i else 0)) &&& (255 - 2 ^ i) |||
        (if c then 2 ^ i else 0) =
      x &&& (255 - 2 ^ i) ||| (if c then 2 ^ i else 0) := by
  apply Nat.eq_of_testBit_eq
  intro k
  simp only [Nat.testBit_or, Nat.testBit_and, testBit_clearMask_all hi, testBit_level_bit]
  by_cases h1 : k = i
  · subst h1
    simp
  · simp [h1]

/-- C20: on a bus whose writes succeed, for every device state, two pins `p`
and `q` with different indices and levels `a` and `b`: `p.Write(a)` then
`q.Write(b)`, and `q.Write(b)` then `p.Write(a)`, both succeed and leave the
same device record, so the same cached output register, and in both orders the
last bus call is the write of that byte to the output register; `p.Write(a)`
done twice leaves the device as `p.Write(a)` done once. -/
theorem Write_commute (d : PCA9554 β) (w : World β) (p q : digitalPin) (hp : p.Issued)
    (hq : q.Issued) (hne : p.n ≠ q.n) (a b : Int) (hbus : d.Bus.WritesSucceed) :
    (q.Write b (p.Write a d w).2.1 (p.Write a d w).2.2).1 = none ∧
    (p.Write a (q.Write b d w).2.1 (q.Write b d w).2.2).1 = none ∧
    (q.Write b (p.Write a d w).2.1 (p.Write a d w).2.2).2.1 =
      (p.Write a (q.Write b d w).2.1 (q.Write b d w).2.2).2.1 ∧
    (q.Write b (p.Write a d w).2.1 (p.Write a d w).2.2).2.2.trace.getLast? =
      some (Event.busWrite d.Addr 1
        (q.Write b (p.Write a d w).2.1 (p.Write a d w).2.2).2.1.outputPortReg) ∧
    (p.Write a (q.Write b d w).2.1 (q.Write b d w).2.2).2.2.trace.getLast? =
      some (Event.busWrite d.Addr 1
        (q.Write b (p.Write a d w).2.1 (p.Write a d w).2.2).2.1.outputPortReg) ∧
    (p.Write a (p.Write a d w).2.1 (p.Write a d w).2.2).1 = none ∧
    (p.Write a (p.Write a d w).2.1 (p.Write a d w).2.2).2.1 = (p.Write a d w).2.1 := by
  obtain ⟨hpn, hppin, hpmask⟩ := Issued_shape hp
  obtain ⟨hqn, hqpin, hqmask⟩ := Issued_shape hq
  have hc := merge_comm hpn hqn hne (a ≠ Low) (b ≠ Low) d.outputPortReg
  have hi := merge_idem hpn (a ≠ Low) d.outputPortReg
  simp only [digitalPin.Write, WriteOutputReg_eq, hbus _ _ _ _, hppin, hpmask, hqpin, hqmask,
    OutputPortRegister, List.getLast?_append, List.getLast?_singleton]
  rw [hc, hi]
  simp

/-- C20 on the echoing bus with cached output 0xA5 and the pins of index 1 and
6, both written `High`: 0xE7 in either order. -/
theorem Write_commute_witness :
    samplePin1.Issued ∧ samplePin6.Issued ∧ samplePin1.n ≠ samplePin6.n ∧
    sampleDevice.Bus.WritesSucceed ∧
    (samplePin6.Write High (samplePin1.Write High sampleDevice sampleWorld).2.1
      (samplePin1.Write High sampleDevice sampleWorld).2.2).2.1.outputPortReg = 0xE7 ∧
    (samplePin1.Write High (samplePin6.Write High sampleDevice sampleWorld).2.1
      (samplePin6.Write High sampleDevice sampleWorld).2.2).2.1.outputPortReg = 0xE7 ∧
    (samplePin6.Write High (samplePin1.Write High sampleDevice sampleWorld).2.1
      (samplePin1.Write High sampleDevice sampleWorld).2.2).2.1 =
      (samplePin1.Write High (samplePin6.Write High sampleDevice sampleWorld).2.1
        (samplePin6.Write High sampleDevice sampleWorld).2.2).2.1 ∧
    (samplePin1.Write High (samplePin1.Write High sampleDevice sampleWorld).2.1
      (samplePin1.Write High sampleDevice sampleWorld).2.2).2.1 =
      (samplePin1.Write High sampleDevice sampleWorld).2.1 :=
  ⟨samplePin1_issued, samplePin6_issued, by decide, echoBus_writesSucceed, rfl, rfl,
    (Write_commute sampleDevice sampleWorld samplePin1 samplePin6 samplePin1_issued
      samplePin6_issued (by decide) High High echoBus_writesSucceed).2.2.1,
    (Write_commute sampleDevice sampleWorld samplePin1 samplePin6 samplePin1_issued
      samplePin6_issued (by decide) High High echoBus_writesSucceed).2.2.2.2.2.2⟩



/-! ## Pulse timing -/

theorem cons_sublist_cons_ne {a x : Int} {pat l : List Int} (h : x ≠ a) :
    (a :: pat).Sublist (x :: l) ↔ (a :: pat).Sublist l := by
  rw [List.sublist_cons_iff]
  constructor
  · rintro (h1 | ⟨r, hr, -⟩)
    · exact h1
    · injection hr with h2 _
      exact absurd h2.symm h
  · exact Or.inl

theorem firstMatch_some {pat : List Int} :
    ∀ {l : List Int} {n : Nat}, firstMatch pat l = some n → CompletesAt pat l n := by
  intro l
  induction l generalizing pat with
  | nil =>
    intro n h
    cases pat with
    | nil =>
      simp only [firstMatch, Option.some.injEq] at h
      subst h
      exact ⟨List.nil_sublist _, fun m hm => absurd hm (Nat.not_lt_zero m)⟩
    | cons a pat => simp [firstMatch] at h
  | cons x l ih =>
    intro n h
    cases pat with
    | nil =>
      simp only [firstMatch, Option.some.injEq] at h
      subst h
      exact ⟨List.nil_sublist _, fun m hm => absurd hm (Nat.not_lt_zero m)⟩
    | cons a pat =>
      simp only [firstMatch] at h
      split at h
      · next hxa =>
        subst hxa
        simp only [Option.map_eq_some'] at h
        obtain ⟨n1, hn1, rfl⟩ := h
        obtain ⟨h1, h2⟩ := ih hn1
        refine ⟨?_, ?_⟩
        · rw [List.take_succ_cons]
          exact List.cons_sublist_cons.2 h1
        · intro m hm
          cases m with
          | zero => simp
          | succ m =>
            rw [List.take_succ_cons, List.cons_sublist_cons]
            exact h2 m (Nat.lt_of_succ_lt_succ hm)
      · next hxa =>
        simp only [Option.map_eq_some'] at h
        obtain ⟨n1, hn1, rfl⟩ := h
        obtain ⟨h1, h2⟩ := ih hn1
        refine ⟨?_, ?_⟩
        · rw [List.take_succ_cons]
          exact (cons_sublist_cons_ne hxa).2 h1
        · intro m hm
          cases m with
          | zero => simp
          | succ m =>
            rw [List.take_succ_cons, cons_sublist_cons_ne hxa]
            exact h2 m (Nat.lt_of_succ_lt_succ hm)

theorem firstMatch_none {pat : List Int} :
    ∀ {l : List Int}, firstMatch pat l = none → ¬ pat.Sublist l := by
  intro l
  induction l generalizing pat with
  | nil =>
    intro h
    cases pat with
    | nil => simp [firstMatch] at h
    | cons a pat => simp
  | cons x l ih =>
    intro h
    cases pat with
    | nil => simp [firstMatch] at h
    | cons a pat =>
      simp only [firstMatch] at h
      split at h
      · next hxa =>
        subst hxa
        simp only [Option.map_eq_none'] at h
        rw [List.cons_sublist_cons]
        exact ih h
      · next hxa =>
        simp only [Option.map_eq_none'] at h
        rw [cons_sublist_cons_ne hxa]
        exact ih h

theorem firstMatch_le {pat : List Int} :
    ∀ {l : List Int} {n : Nat}, firstMatch pat l = some n → n ≤ l.length := by
  intro l
  induction l generalizing pat with
  | nil =>
    intro n h
    cases pat with
    | nil =>
      simp only [firstMatch, Option.some.injEq] at h
      omega
    | cons a pat => simp [firstMatch] at h
  | cons x l ih =>
    intro n h
    cases pat with
    | nil =>
      simp only [firstMatch, Option.some.injEq] at h
      omega
    | cons a pat =>
      simp only [firstMatch] at h
      split at h <;>
        · simp only [Option.map_eq_some'] at h
          obtain ⟨n1, hn1, rfl⟩ := h
          have := ih hn1
          simp only [List.length_cons]
          omega

/-- Looking for `a :: pat` is looking for `a` and then for `pat` in what
follows. -/
theorem firstMatch_cons (a : Int) (pat : List Int) :
    ∀ l : List Int, firstMatch (a :: pat) l =
      (firstMatch [a] l).bind (fun n1 => (firstMatch pat (l.drop n1)).map (n1 + ·)) := by
  intro l
  induction l with
  | nil => simp [firstMatch]
  | cons x l ih =>
    simp only [firstMatch]
    split
    · cases h : firstMatch pat l <;> simp [h, Nat.add_comm]
    · rw [ih]
      cases h1 : firstMatch [a] l with
      | none => simp
      | some n1 =>
        simp only [Option.map_some', Option.some_bind, List.drop_succ_cons, Option.map_map]
        cases h : firstMatch pat (List.drop n1 l) <;> simp [h]
        omega

/-- The level `Read` reports is the level of the pin's bit. -/
theorem Read_level_eq {p : digitalPin} (hp : p.Issued) (r : Nat) :
    (if 0 = andNot r p.mask then Low else High) = p.level r := by
  obtain ⟨hn, -, hmask⟩ := Issued_shape hp
  rw [hmask]
  unfold digitalPin.level
  by_cases hb : r.testBit p.n = true
  · have : ¬ (0 = andNot r (255 - 2 ^ p.n)) := by
      rw [andNot_clearMask hn r, hb]
      simp
    rw [if_neg this, if_pos hb]
  · have : 0 = andNot r (255 - 2 ^ p.n) := by
      rw [andNot_clearMask hn r]
      simpa using hb
    rw [if_pos this, if_neg hb]

/-- A read on the script bus when the script is used up. -/
theorem Read_script_nil {p : digitalPin} {d : PCA9554 (List (Except Error Nat))}
    {w : World (List (Except Error Nat))} (hd : d.Bus = scriptBus) (hw : w.bus = []) :
    p.Read d w = (.error "script: no more reads", d,
      { w with bus := [], trace := w.trace ++ [Event.busRead d.Addr InputPortRegister] }) := by
  rw [Read_eq, hd, hw]
  rfl

/-- A read on the script bus that the script answers with a failure. -/
theorem Read_script_error {p : digitalPin} {d : PCA9554 (List (Except Error Nat))}
    {w : World (List (Except Error Nat))} {e : Error} {rest : List (Except Error Nat)}
    (hd : d.Bus = scriptBus) (hw : w.bus = .error e :: rest) :
    p.Read d w = (.error e, d,
      { w with bus := rest, trace := w.trace ++ [Event.busRead d.Addr InputPortRegister] }) := by
  rw [Read_eq, hd, hw]
  rfl

/-- A read on the script bus that the script answers with a byte. -/
theorem Read_script_ok {p : digitalPin} (hp : p.Issued) {d : PCA9554 (List (Except Error Nat))}
    {w : World (List (Except Error Nat))} {r : Nat} {rest : List (Except Error Nat)}
    (hd : d.Bus = scriptBus) (hw : w.bus = .ok r :: rest) :
    p.Read d w = (.ok (p.level r), { d with inputPortReg := r },
      { w with bus := rest, trace := w.trace ++ [Event.busRead d.Addr InputPortRegister] }) := by
  rw [Read_eq, hd, hw, ← Read_level_eq hp r]
  rfl

theorem afterReads_afterReads (w : World (List (Except Error Nat))) (addr n m : Nat) :
    (w.afterReads addr n).afterReads addr m = w.afterReads addr (n + m) := by
  unfold World.afterReads
  simp only [List.drop_drop, List.append_assoc, ← List.replicate_add]

theorem answered_drop :
    ∀ (s : List (Except Error Nat)) (n : Nat), n ≤ (answered s).length →
      answered (s.drop n) = (answered s).drop n ∧ firstFailure (s.drop n) = firstFailure s := by
  intro s
  induction s with
  | nil =>
    intro n _
    simp [answered]
  | cons x s ih =>
    intro n hn
    cases n with
    | zero => simp
    | succ n =>
      cases x with
      | error e => simp [answered] at hn
      | ok r =>
        simp only [answered, List.length_cons, Nat.add_le_add_iff_right] at hn
        simpa [answered, firstFailure] using ih n hn

theorem answered_length_le (s : List (Except Error Nat)) : (answered s).length ≤ s.length := by
  induction s with
  | nil => simp [answered]
  | cons x s ih =>
    cases x with
    | error e => simp [answered]
    | ok r =>
      simp only [answered, List.length_cons]
      omega

/-- One polling loop on the script bus. -/
theorem waitFor_script {p : digitalPin} (hp : p.Issued) (target : Int) :
    ∀ (s : List (Except Error Nat)) (d : PCA9554 (List (Except Error Nat)))
      (w : World (List (Except Error Nat))) (fuel : Nat),
      d.Bus = scriptBus → w.bus = s → s.length < fuel →
      (∀ n, firstMatch [target] ((answered s).map p.level) = some n →
        ∃ d1, d1.Bus = scriptBus ∧ d1.Addr = d.Addr ∧
          p.waitFor target fuel d w = some (none, d1, w.afterReads d.Addr n)) ∧
      (firstMatch [target] ((answered s).map p.level) = none →
        ∃ d1 w1, p.waitFor target fuel d w = some (some (firstFailure s), d1, w1)) := by
  intro s
  induction s with
  | nil =>
    intro d w fuel hd hw hf
    obtain ⟨f, rfl⟩ : ∃ f, fuel = f + 1 := ⟨fuel - 1, by omega⟩
    refine ⟨?_, ?_⟩
    · intro n h
      simp [answered, firstMatch] at h
    · intro _
      refine ⟨d,
        { w with bus := [], trace := w.trace ++ [Event.busRead d.Addr InputPortRegister] }, ?_⟩
      simp only [digitalPin.waitFor, Read_script_nil hd hw, firstFailure]
  | cons x s ih =>
    intro d w fuel hd hw hf
    obtain ⟨f, rfl⟩ : ∃ f, fuel = f + 1 := ⟨fuel - 1, by omega⟩
    have hf1 : s.length < f := by
      simp only [List.length_cons] at hf
      omega
    cases x with
    | error e =>
      refine ⟨?_, ?_⟩
      · intro n h
        simp [answered, firstMatch] at h
      · intro _
        refine ⟨d,
          { w with bus := s, trace := w.trace ++ [Event.busRead d.Addr InputPortRegister] }, ?_⟩
        simp only [digitalPin.waitFor, Read_script_error hd hw, firstFailure]
    | ok r =>
      have hread := Read_script_ok hp hd hw
      by_cases hlv : p.level r = target
      · refine ⟨?_, ?_⟩
        · intro n h
          simp only [answered, List.map_cons, firstMatch, if_pos hlv, Option.map_some',
            Option.some.injEq] at h
          subst h
          refine ⟨{ d with inputPortReg := r }, hd, rfl, ?_⟩
          simp only [digitalPin.waitFor, hread, if_pos hlv, World.afterReads, hw]
          rfl
        · intro h
          simp [answered, firstMatch, hlv] at h
      · have hstep : p.waitFor target (f + 1) d w =
            p.waitFor target f { d with inputPortReg := r }
              { w with bus := s,
                       trace := w.trace ++ [Event.busRead d.Addr InputPortRegister] } := by
          simp only [digitalPin.waitFor, hread, if_neg hlv]
        obtain ⟨ih1, ih2⟩ := ih { d with inputPortReg := r }
          { w with bus := s, trace := w.trace ++ [Event.busRead d.Addr InputPortRegister] }
          f hd rfl hf1
        refine ⟨?_, ?_⟩
        · intro n h
          simp only [answered, List.map_cons, firstMatch, if_neg hlv,
            Option.map_eq_some'] at h
          obtain ⟨n1, hn1, rfl⟩ := h
          obtain ⟨d1, hd1, ha1, hw1⟩ := ih1 n1 hn1
          refine ⟨d1, hd1, ha1, ?_⟩
          rw [hstep, hw1]
          simp [World.afterReads, hw, List.replicate_succ]
        · intro h
          simp only [answered, List.map_cons, firstMatch, if_neg hlv,
            Option.map_eq_none'] at h
          obtain ⟨d1, w1, h1⟩ := ih2 h
          exact ⟨d1, w1, by rw [hstep, h1]; rfl⟩

theorem afterReads_zero (w : World (List (Except Error Nat))) (addr : Nat) :
    w.afterReads addr 0 = w := by
  cases w
  simp [World.afterReads]

/-- One polling loop on the script bus, started after `k` answered reads. -/
theorem waitFor_script_from {p : digitalPin} (hp : p.Issued) (target : Int)
    (w0 : World (List (Except Error Nat))) (addr k fuel : Nat)
    (d : PCA9554 (List (Except Error Nat))) (hd : d.Bus = scriptBus) (ha : d.Addr = addr)
    (hk : k ≤ (answered w0.bus).length) (hf : w0.bus.length < fuel) :
    (∀ n, firstMatch [target] (((answered w0.bus).map p.level).drop k) = some n →
      ∃ d1, d1.Bus = scriptBus ∧ d1.Addr = addr ∧ k + n ≤ (answered w0.bus).length ∧
        p.waitFor target fuel d (w0.afterReads addr k) =
          some (none, d1, w0.afterReads addr (k + n))) ∧
    (firstMatch [target] (((answered w0.bus).map p.level).drop k) = none →
      ∃ d1 w1, p.waitFor target fuel d (w0.afterReads addr k) =
        some (some (firstFailure w0.bus), d1, w1)) := by
  obtain ⟨hans, hfail⟩ := answered_drop w0.bus k hk
  have hlen : (w0.bus.drop k).length < fuel :=
    Nat.lt_of_le_of_lt (by rw [List.length_drop]; exact Nat.sub_le _ _) hf
  have hlv : (answered (w0.bus.drop k)).map p.level = ((answered w0.bus).map p.level).drop k := by
    rw [hans, List.map_drop]
  obtain ⟨h1, h2⟩ := waitFor_script hp target (w0.bus.drop k) d (w0.afterReads addr k) fuel hd rfl hlen
  rw [hlv, ha] at h1
  rw [hlv, hfail] at h2
  refine ⟨?_, h2⟩
  intro n hn
  obtain ⟨d1, hd1, ha1, hw1⟩ := h1 n hn
  have hle := firstMatch_le hn
  rw [List.length_drop, List.length_map] at hle
  refine ⟨d1, hd1, ha1, by omega, ?_⟩
  rw [hw1, afterReads_afterReads]

/-- `TimePulse` on the script bus, phase by phase. -/
theorem TimePulse_script_phases {p : digitalPin} (hp : p.Issued) (state : Int)
    (now : World (List (Except Error Nat)) → Int) (d : PCA9554 (List (Except Error Nat)))
    (hd : d.Bus = scriptBus) (w : World (List (Except Error Nat))) (fuel : Nat)
    (hf : w.bus.length < fuel) :
    (∀ n1 n2 n3,
      firstMatch [opposite state] ((answered w.bus).map p.level) = some n1 →
      firstMatch [state] (((answered w.bus).map p.level).drop n1) = some n2 →
      firstMatch [opposite state] (((answered w.bus).map p.level).drop (n1 + n2)) = some n3 →
      ∃ d1, p.TimePulse state now fuel d w =
        some (.ok (now (w.afterReads d.Addr (n1 + n2 + n3)) - now (w.afterReads d.Addr (n1 + n2))),
          d1, w.afterReads d.Addr (n1 + n2 + n3))) ∧
    ((firstMatch [opposite state] ((answered w.bus).map p.level) = none ∨
      (∃ n1, firstMatch [opposite state] ((answered w.bus).map p.level) = some n1 ∧
        (firstMatch [state] (((answered w.bus).map p.level).drop n1) = none ∨
          ∃ n2, firstMatch [state] (((answered w.bus).map p.level).drop n1) = some n2 ∧
            firstMatch [opposite state] (((answered w.bus).map p.level).drop (n1 + n2)) =
              none))) →
      ∃ d1 w1, p.TimePulse state now fuel d w = some (.error (firstFailure w.bus), d1, w1)) := by
  have hopp : (if state = Low then High else Low) = opposite state := rfl
  obtain ⟨a1, b1⟩ := waitFor_script_from hp (opposite state) w d.Addr 0 fuel d hd rfl
    (Nat.zero_le _) hf
  rw [afterReads_zero, List.drop_zero] at a1 b1
  refine ⟨?_, ?_⟩
  · intro n1 n2 n3 h1 h2 h3
    obtain ⟨d1, hd1, ha1, hk1, e1⟩ := a1 n1 h1
    rw [Nat.zero_add] at hk1 e1
    obtain ⟨d2, hd2, ha2, hk2, e2⟩ :=
      (waitFor_script_from hp state w d.Addr n1 fuel d1 hd1 ha1 hk1 hf).1 n2 h2
    obtain ⟨d3, -, -, -, e3⟩ :=
      (waitFor_script_from hp (opposite state) w d.Addr (n1 + n2) fuel d2 hd2 ha2 hk2 hf).1 n3 h3
    exact ⟨d3, by simp only [digitalPin.TimePulse, hopp, e1, e2, e3]⟩
  · rintro (h1 | ⟨n1, h1, h2 | ⟨n2, h2, h3⟩⟩)
    · obtain ⟨d1, w1, e1⟩ := b1 h1
      exact ⟨d1, w1, by simp only [digitalPin.TimePulse, hopp, e1]⟩
    · obtain ⟨d1, hd1, ha1, hk1, e1⟩ := a1 n1 h1
      rw [Nat.zero_add] at hk1 e1
      obtain ⟨d2, w2, e2⟩ :=
        (waitFor_script_from hp state w d.Addr n1 fuel d1 hd1 ha1 hk1 hf).2 h2
      exact ⟨d2, w2, by simp only [digitalPin.TimePulse, hopp, e1, e2]⟩
    · obtain ⟨d1, hd1, ha1, hk1, e1⟩ := a1 n1 h1
      rw [Nat.zero_add] at hk1 e1
      obtain ⟨d2, hd2, ha2, hk2, e2⟩ :=
        (waitFor_script_from hp state w d.Addr n1 fuel d1 hd1 ha1 hk1 hf).1 n2 h2
      obtain ⟨d3, w3, e3⟩ :=
        (waitFor_script_from hp (opposite state) w d.Addr (n1 + n2) fuel d2 hd2 ha2 hk2 hf).2 h3
      exact ⟨d3, w3, by simp only [digitalPin.TimePulse, hopp, e1, e2, e3]⟩

theorem answered_append_error (pre : List Nat) (e : Error) (rest : List (Except Error Nat)) :
    answered (pre.map Except.ok ++ Except.error e :: rest) = pre ∧
    firstFailure (pre.map Except.ok ++ Except.error e :: rest) = e := by
  induction pre with
  | nil => exact ⟨rfl, rfl⟩
  | cons r pre ih =>
    exact ⟨congrArg (List.cons r) ih.1, ih.2⟩

theorem CompletesAt.sublist {pat l : List Int} {n : Nat} (h : CompletesAt pat l n) :
    pat.Sublist l :=
  h.1.trans (List.take_sublist n l)

/-- C18: on a bus that answers successive input-register reads from a script of
bytes and failures, `TimePulse(state)` returns once it has more fuel than the
script is long.  Take the levels of the pin in the reads answered before the
first failing read.  `TimePulse` returns without error exactly when these
levels contain, in this order, the opposite of `state`, `state`, and the
opposite again.  In that case, with `n` the number of reads after which the
three levels are first complete and `m` the number after which the first two
are, it has consumed exactly the first `n` reads and returns the clock after
`n` reads minus the clock after `m` reads.  Otherwise it returns the error of
the first failing read; in particular, when a scripted read fails with `e`
before the three levels are complete, it returns `e`. -/
theorem TimePulse_script (p : digitalPin) (hp : p.Issued) (state : Int)
    (now : World (List (Except Error Nat)) → Int) (d : PCA9554 (List (Except Error Nat)))
    (hd : d.Bus = scriptBus) (w : World (List (Except Error Nat))) (fuel : Nat)
    (hf : w.bus.length < fuel) :
    ∃ res d1 w1, p.TimePulse state now fuel d w = some (res, d1, w1) ∧
      ((∃ t, res = .ok t) ↔
        [opposite state, state, opposite state].Sublist ((answered w.bus).map p.level)) ∧
      ([opposite state, state, opposite state].Sublist ((answered w.bus).map p.level) →
        ∃ m n, CompletesAt [opposite state, state] ((answered w.bus).map p.level) m ∧
          CompletesAt [opposite state, state, opposite state]
            ((answered w.bus).map p.level) n ∧
          w1 = w.afterReads d.Addr n ∧
          res = .ok (now (w.afterReads d.Addr n) - now (w.afterReads d.Addr m))) ∧
      (¬ [opposite state, state, opposite state].Sublist ((answered w.bus).map p.level) →
        res = .error (firstFailure w.bus)) ∧
      (∀ (pre : List Nat) (e : Error) (rest : List (Except Error Nat)),
        w.bus = pre.map Except.ok ++ Except.error e :: rest →
        ¬ [opposite state, state, opposite state].Sublist (pre.map p.level) →
        res = .error e) := by
  obtain ⟨hok, herr⟩ := TimePulse_script_phases hp state now d hd w fuel hf
  have h3 := firstMatch_cons (opposite state) [state, opposite state]
    ((answered w.bus).map p.level)
  have h2 := firstMatch_cons (opposite state) [state] ((answered w.bus).map p.level)
  have hlast : ∀ (res : Except Error Int),
      (¬ [opposite state, state, opposite state].Sublist ((answered w.bus).map p.level) →
        res = .error (firstFailure w.bus)) →
      ∀ (pre : List Nat) (e : Error) (rest : List (Except Error Nat)),
        w.bus = pre.map Except.ok ++ Except.error e :: rest →
        ¬ [opposite state, state, opposite state].Sublist (pre.map p.level) →
        res = .error e := by
    intro res hres pre e rest hw hn
    have := answered_append_error pre e rest
    rw [hw, this.1, this.2] at hres
    exact hres hn
  -- the failing outcomes
  have failing : firstMatch [opposite state, state, opposite state]
        ((answered w.bus).map p.level) = none →
      (firstMatch [opposite state] ((answered w.bus).map p.level) = none ∨
        (∃ n1, firstMatch [opposite state] ((answered w.bus).map p.level) = some n1 ∧
          (firstMatch [state] (((answered w.bus).map p.level).drop n1) = none ∨
            ∃ n2, firstMatch [state] (((answered w.bus).map p.level).drop n1) = some n2 ∧
              firstMatch [opposite state] (((answered w.bus).map p.level).drop (n1 + n2)) =
                none))) →
      ∃ res d1 w1, p.TimePulse state now fuel d w = some (res, d1, w1) ∧
        ((∃ t, res = .ok t) ↔
          [opposite state, state, opposite state].Sublist ((answered w.bus).map p.level)) ∧
        ([opposite state, state, opposite state].Sublist ((answered w.bus).map p.level) →
          ∃ m n, CompletesAt [opposite state, state] ((answered w.bus).map p.level) m ∧
            CompletesAt [opposite state, state, opposite state]
              ((answered w.bus).map p.level) n ∧
            w1 = w.afterReads d.Addr n ∧
            res = .ok (now (w.afterReads d.Addr n) - now (w.afterReads d.Addr m))) ∧
        (¬ [opposite state, state, opposite state].Sublist ((answered w.bus).map p.level) →
          res = .error (firstFailure w.bus)) ∧
        (∀ (pre : List Nat) (e : Error) (rest : List (Except Error Nat)),
        w.bus = pre.map Except.ok ++ Except.error e :: rest →
          ¬ [opposite state, state, opposite state].Sublist (pre.map p.level) →
          res = .error e) := by
    intro hnone hcase
    have hnot := firstMatch_none hnone
    obtain ⟨d1, w1, e1⟩ := herr hcase
    refine ⟨_, d1, w1, e1, ?_, fun hs => absurd hs hnot, fun _ => rfl, hlast _ (fun _ => rfl)⟩
    constructor
    · rintro ⟨t, ht⟩
      cases ht
    · intro hs
      exact absurd hs hnot
  cases h1 : firstMatch [opposite state] ((answered w.bus).map p.level) with
  | none =>
    exact failing (by rw [h3, h1]; rfl) (Or.inl h1)
  | some n1 =>
    have h3' := firstMatch_cons state [opposite state] (((answered w.bus).map p.level).drop n1)
    cases hs2 : firstMatch [state] (((answered w.bus).map p.level).drop n1) with
    | none =>
      exact failing (by rw [h3, h1, Option.some_bind, h3', hs2]; rfl)
        (Or.inr ⟨n1, h1, Or.inl hs2⟩)
    | some n2 =>
      cases hs3 : firstMatch [opposite state]
          (((answered w.bus).map p.level).drop (n1 + n2)) with
      | none =>
        exact failing
          (by rw [h3, h1, Option.some_bind, h3', hs2, Option.some_bind, List.drop_drop, hs3]; rfl)
          (Or.inr ⟨n1, h1, Or.inr ⟨n2, hs2, hs3⟩⟩)
      | some n3 =>
        obtain ⟨d1, e1⟩ := hok n1 n2 n3 h1 hs2 hs3
        have hfull : firstMatch [opposite state, state, opposite state]
            ((answered w.bus).map p.level) = some (n1 + n2 + n3) := by
          rw [h3, h1, Option.some_bind, h3', hs2, Option.some_bind, List.drop_drop, hs3]
          simp [Nat.add_assoc]
        have hmid : firstMatch [opposite state, state] ((answered w.bus).map p.level) =
            some (n1 + n2) := by
          rw [h2, h1, Option.some_bind, hs2]
          rfl
        have c3 := firstMatch_some hfull
        have c2 := firstMatch_some hmid
        refine ⟨_, d1, _, e1, ?_, fun _ => ⟨n1 + n2, n1 + n2 + n3, c2, c3, rfl, rfl⟩,
          fun hn => absurd c3.sublist hn, ?_⟩
        · exact ⟨fun _ => c3.sublist, fun _ => ⟨_, rfl⟩⟩
        · intro pre e rest hw hn
          have := answered_append_error pre e rest
          rw [← hw] at this
          rw [this.1] at c3
          exact absurd c3.sublist hn

/-- C18 for the pin of index 3 and `state = High`: on the script high, low, low,
high, high, low, high the pulse is complete after 6 reads, timing runs from
read 4 to read 6, and the seventh byte is left unread; on a script whose third
read fails, that error is returned. -/
theorem TimePulse_script_witness :
    samplePin.Issued ∧ scriptDevice.Bus = scriptBus ∧
    (World.start pulseScript).bus.length < 8 ∧
    (samplePin.TimePulse High traceClock 8 scriptDevice (World.start pulseScript)).map
      (fun r => r.1) = some (.ok 2) ∧
    (samplePin.TimePulse High traceClock 8 scriptDevice (World.start pulseScript)).map
      (fun r => r.2.2.bus) = some [.ok 0xFF] ∧
    (samplePin.TimePulse High traceClock 8 scriptDevice (World.start brokenScript)).map
      (fun r => r.1) = some (.error "i2c: no acknowledge") ∧
    (∃ res d1 w1,
      samplePin.TimePulse High traceClock 8 scriptDevice (World.start pulseScript) =
        some (res, d1, w1) ∧
      ((∃ t, res = .ok t) ↔
        [opposite High, High, opposite High].Sublist
          ((answered (World.start pulseScript).bus).map samplePin.level)) ∧
      ([opposite High, High, opposite High].Sublist
          ((answered (World.start pulseScript).bus).map samplePin.level) →
        ∃ m n, CompletesAt [opposite High, High]
            ((answered (World.start pulseScript).bus).map samplePin.level) m ∧
          CompletesAt [opposite High, High, opposite High]
            ((answered (World.start pulseScript).bus).map samplePin.level) n ∧
          w1 = (World.start pulseScript).afterReads scriptDevice.Addr n ∧
          res = .ok (traceClock ((World.start pulseScript).afterReads scriptDevice.Addr n) -
            traceClock ((World.start pulseScript).afterReads scriptDevice.Addr m))) ∧
      (¬ [opposite High, High, opposite High].Sublist
          ((answered (World.start pulseScript).bus).map samplePin.level) →
        res = .error (firstFailure (World.start pulseScript).bus)) ∧
      (∀ (pre : List Nat) (e : Error) (rest : List (Except Error Nat)),
        (World.start pulseScript).bus = pre.map Except.ok ++ Except.error e :: rest →
        ¬ [opposite High, High, opposite High].Sublist (pre.map samplePin.level) →
        res = .error e)) :=
  ⟨samplePin_issued, rfl, by decide, rfl, rfl, rfl,
    TimePulse_script samplePin samplePin_issued High traceClock scriptDevice rfl
      (World.start pulseScript) 8 (by decide)⟩

end Pca9554
